import Mathlib

/-!
Verification of the tender-portal core (credential storage, session
lifecycle, role capabilities, and the alert/notification rule engine)
against a shallow embedding of `src/tender_portal/auth.py`,
`src/tender_portal/models.py` and the route layer in
`src/tender_portal/server.py`.

Modelling conventions:
* Python `str` values manipulated character-by-character by the credential
  store are embedded as `List Char`; values only compared for equality stay
  as `String`.
* A fallible Python operation is `Option`/`Except`: `none` (resp. `.error`)
  models an uncaught exception escaping the function.
* `datetime` instants are integers (the code stores `isoformat()` strings
  and parses them back with `fromisoformat`, an exact round trip, so the
  order embedding into `Int` is faithful).
* A nullable SQL date column is a `DateCol`: SQL `NULL`, a text that
  `date.fromisoformat` rejects, or a text parsing to a day ordinal. The
  embedding of dates as day ordinals (`Int`) is order- and
  difference-faithful.
* SQLite tables are association lists kept in insertion (rowid) order;
  `AUTOINCREMENT` columns are explicit `next…Id` counters.
-/

namespace TenderPortal

/-! ### Credential store (`src/tender_portal/auth.py`)

`_pbkdf2_hash` wraps `hashlib.pbkdf2_hmac(...).hex()`, an external
primitive; it is kept abstract as a parameter `kdf : password → salt bytes
→ hex digest characters`.  Everything else is translated directly. -/

/-- Lower-case hex digit table used by Python's `bytes.hex` (and, for the
decimal digits `0`–`9`, by `str(int)`). -/
def hexDigitChar (n : Nat) : Char :=
  match n with
  | 0 => '0' | 1 => '1' | 2 => '2' | 3 => '3' | 4 => '4'
  | 5 => '5' | 6 => '6' | 7 => '7' | 8 => '8' | 9 => '9'
  | 10 => 'a' | 11 => 'b' | 12 => 'c' | 13 => 'd' | 14 => 'e'
  | _ => 'f'

/-- Two-character hex rendering of a single byte, as in `bytes.hex`. -/
def byteHex (b : Nat) : List Char :=
  [hexDigitChar (b / 16), hexDigitChar (b % 16)]

/-- Model of `bytes.hex()` on a byte string: concatenated two-digit groups. -/
def bytesHex (bs : List Nat) : List Char :=
  (bs.map byteHex).flatten

/-- Value of one hex character, upper or lower case, as accepted by
`bytes.fromhex`; `none` for a non-hex character. -/
def hexVal (c : Char) : Option Nat :=
  if 48 ≤ c.toNat ∧ c.toNat ≤ 57 then some (c.toNat - 48)
  else if 97 ≤ c.toNat ∧ c.toNat ≤ 102 then some (c.toNat - 87)
  else if 65 ≤ c.toNat ∧ c.toNat ≤ 70 then some (c.toNat - 55)
  else none

/-- Model of `bytes.fromhex`: pairs of hex digits; `none` models the `ValueError`
raised on odd length or a non-hex character.  (The whitespace skipping of
`bytes.fromhex` is not modelled; no call site in the source produces
whitespace and no claim depends on it.) -/
def bytesFromHex : List Char → Option (List Nat)
  | [] => some []
  | [_] => none
  | c1 :: c2 :: rest =>
    match hexVal c1, hexVal c2, bytesFromHex rest with
    | some hi, some lo, some bs => some ((16 * hi + lo) :: bs)
    | _, _, _ => none

/-- Python `str.split("$")`: split on every occurrence of the delimiter;
the empty string yields `[""]`. -/
def splitDollar : List Char → List (List Char)
  | [] => [[]]
  | c :: rest =>
    match splitDollar rest with
    | [] => [[]]
    | g :: gs => if c = '$' then [] :: g :: gs else (c :: g) :: gs

/-- ASCII test used by `secrets.compare_digest` on `str` arguments. -/
def isAscii (c : Char) : Bool :=
  c.toNat < 128

/-- Model of `secrets.compare_digest` on two `str` values: equality when both are
ASCII, `none` models the `TypeError` raised otherwise.  (The comparison's
constant-time execution is a timing property outside the embedding.) -/
def compareDigest (a b : List Char) : Option Bool :=
  if a.all isAscii && b.all isAscii then some (a == b) else none

/-- Source function `hash_password` (auth.py line 23), with the fresh 16-byte salt from
`os.urandom` passed explicitly: `salt.hex() + "$" + digest`. -/
def hash_password (kdf : List Char → List Nat → List Char)
    (salt : List Nat) (password : List Char) : List Char :=
  bytesHex salt ++ '$' :: kdf password salt

/-- Source function `verify_password` (auth.py line 29).  The `try/except ValueError`
covers only the tuple unpacking of `split("$")`; a failure of
`bytes.fromhex` afterwards escapes (`none`). -/
def verify_password (kdf : List Char → List Nat → List Char)
    (password stored : List Char) : Option Bool :=
  match splitDollar stored with
  | [saltHex, digest] =>
    match bytesFromHex saltHex with
    | none => none
    | some salt => compareDigest (kdf password salt) digest
  | _ => some false

/-- Concrete executable stand-in for the external KDF, used only to
instantiate witnesses and counterexamples at closed inputs; its output is
always a hex string, like `pbkdf2_hmac(...).hex()`. -/
def demoKdf (password : List Char) (salt : List Nat) : List Char :=
  bytesHex (salt ++ password.map (fun c => c.toNat % 256))

/-! ### Decimal rendering of ids (model of Python `str(int)` inside the
f-strings that build notification keys and messages) -/

/-- Fuel-indexed digit extraction; `fuel > n` is always enough since the
argument shrinks by a factor of ten. -/
def decReprAux : Nat → Nat → List Char
  | 0, _ => []
  | fuel + 1, n =>
    if n < 10 then [hexDigitChar n]
    else decReprAux fuel (n / 10) ++ [hexDigitChar (n % 10)]

/-- Decimal digit string of a natural number, the model of Python
`str(i)` for a non-negative `int`. -/
def decRepr (n : Nat) : List Char :=
  decReprAux (n + 1) n

/-- Decimal value of a digit string (proof tool for injectivity). -/
def decVal (l : List Char) : Nat :=
  l.foldl (fun a c => 10 * a + (c.toNat - 48)) 0

/-- Python `str(i)` for a non-negative id column. -/
def natStr (n : Nat) : String :=
  ⟨decRepr n⟩

/-- Python `str(i)` for a possibly negative day count. -/
def intStr (i : Int) : String :=
  if i < 0 then "-" ++ natStr i.natAbs else natStr i.natAbs

/-! ### Access-control model (`models.py` lines 36–57) -/

/-- The `PermissionError` condition carrying the role and requested area
(models.py line 57 formats these two values into the message). -/
structure PermError where
  role : String
  area : String
deriving DecidableEq

/-- The static `ROLE_PERMISSIONS` table (models.py lines 40–46); `.get`
with default yields the empty set for unknown roles. -/
def ROLE_PERMISSIONS (role : String) : List String :=
  if role = "admin" then ["tenders", "projects", "finance", "suppliers", "reports"]
  else if role = "procurement" then ["tenders", "reports", "suppliers"]
  else if role = "project_manager" then ["projects", "reports", "suppliers"]
  else if role = "finance" then ["projects", "finance", "reports"]
  else if role = "viewer" then ["reports"]
  else []

/-- A `users` row restricted to the fields the core reads. -/
structure UserRec where
  id : Nat
  username : String
  role : String
deriving DecidableEq

/-- Source function `check_permission` (models.py line 53): membership in the role's
capability set, `PermissionError` otherwise. -/
def check_permission (user : UserRec) (area : String) : Except PermError Unit :=
  if area ∈ ROLE_PERMISSIONS user.role then Except.ok ()
  else Except.error ⟨user.role, area⟩

/-! ### Session manager (`auth.py` lines 62–85) -/

/-- Constant `SESSION_DURATION_HOURS = 12`, in seconds of model time. -/
def SESSION_DURATION : Int :=
  12 * 60 * 60

/-- A `sessions` row. -/
structure SessionRow where
  id : Nat
  user_id : Nat
  token : String
  expires_at : Int
deriving DecidableEq

/-- The state the session manager touches: `users` and `sessions` tables
plus the `sessions` autoincrement counter. -/
structure AuthDB where
  users : List UserRec
  sessions : List SessionRow
  nextSessionId : Nat
deriving DecidableEq

/-- Source function `create_session` (auth.py line 62), with the random token passed
explicitly; returns the new state with the row inserted together with the
token and its `expires_at = now + 12h`. -/
def create_session (db : AuthDB) (userId : Nat) (token : String) (now : Int) :
    AuthDB × String × Int :=
  let expires := now + SESSION_DURATION
  ({ db with
      sessions := db.sessions ++ [⟨db.nextSessionId, userId, token, expires⟩],
      nextSessionId := db.nextSessionId + 1 },
   token, expires)

/-- Source function `get_user_by_session` (auth.py line 72): look the token up; on
`expires_at < now` delete the row (lazy expiry) and return `none`;
otherwise return the bound user. -/
def get_user_by_session (db : AuthDB) (token : String) (now : Int) :
    AuthDB × Option UserRec :=
  match db.sessions.find? (fun s => s.token == token) with
  | none => (db, none)
  | some s =>
    if s.expires_at < now then
      ({ db with sessions := db.sessions.filter (fun r => r.id != s.id) }, none)
    else
      (db, db.users.find? (fun u => u.id == s.user_id))

/-- Source function `destroy_session` (auth.py line 84). -/
def destroy_session (db : AuthDB) (token : String) : AuthDB :=
  { db with sessions := db.sessions.filter (fun s => s.token != token) }

/-! ### Domain data model (the columns read by the core of `models.py`)

Record structures carry the columns the alert engine, the reporting
pipeline and the claims touch; remaining CRUD columns are payload the
core never inspects. `REAL` money columns are embedded as `Int` (no claim
involves non-integral arithmetic). -/

/-- A nullable SQL date column: `NULL`, text rejected by
`date.fromisoformat` (a `ValueError` at parse time), or text parsing to
the day ordinal `d`. -/
inductive DateCol where
  | null : DateCol
  | bad : String → DateCol
  | ok : String → Int → DateCol
deriving DecidableEq

/-- SQL `IS NULL` on a date column. -/
def DateCol.isNull : DateCol → Bool
  | .null => true
  | _ => false

/-- Model of `date.fromisoformat` on the stored text: the day ordinal, or `none`
for the `ValueError` case. -/
def DateCol.day : DateCol → Option Int
  | .ok _ d => some d
  | _ => none

/-- The raw stored text (interpolated into messages). -/
def DateCol.text : DateCol → String
  | .null => ""
  | .bad s => s
  | .ok s _ => s

/-- A `tenders` row (columns the engine and claims read). -/
structure Tender where
  id : Nat
  title_en : String
  title_ar : Option String
  status : String
  submission_deadline : DateCol
deriving DecidableEq

/-- A `suppliers` row (only the id and name are claim-relevant). -/
structure Supplier where
  id : Nat
  name_en : String
deriving DecidableEq

/-- A `projects` row (columns the engine and the financial pipeline read). -/
structure Project where
  id : Nat
  name_en : String
  name_ar : Option String
  guarantee_end : DateCol
  amount_received : Int
  amount_invoiced : Int
deriving DecidableEq

/-- An `invoices` row. -/
structure Invoice where
  id : Nat
  project_id : Nat
  status : String
  due_date : DateCol
  amount : Int
deriving DecidableEq

/-- A `notifications` row (`database.py` lines 167–180); `created_at`
is reflected by list position (rows are kept in insertion order and
later rows are newer). -/
structure Notification where
  id : Nat
  unique_key : String
  title_en : String
  title_ar : String
  message_en : String
  message_ar : String
  level : String
  target_role : String
  is_read : Bool
deriving DecidableEq

/-- The persistent store: one list per table, in rowid order, plus the
autoincrement counters. -/
structure DB where
  tenders : List Tender
  suppliers : List Supplier
  projects : List Project
  invoices : List Invoice
  notifications : List Notification
  nextTenderId : Nat
  nextSupplierId : Nat
  nextProjectId : Nat
  nextInvoiceId : Nat
  nextNotifId : Nat
deriving DecidableEq

/-- The non-notification projection of the store, used to state that the
alert engine touches nothing but the `notifications` table. -/
def DB.core (db : DB) :
    List Tender × List Supplier × List Project × List Invoice ×
      Nat × Nat × Nat × Nat :=
  (db.tenders, db.suppliers, db.projects, db.invoices,
   db.nextTenderId, db.nextSupplierId, db.nextProjectId, db.nextInvoiceId)

/-! ### Notification store and alert rule engine (`models.py` 860–955) -/

/-- The title/message pairs, level and target role passed to
`ensure_notification`, bundled. -/
structure NotifData where
  title_en : String
  title_ar : String
  message_en : String
  message_ar : String
  level : String
  target_role : String
deriving DecidableEq

/-- The row `ensure_notification` inserts (`is_read` defaults to 0). -/
def mkNotif (id : Nat) (uniqueKey : String) (d : NotifData) : Notification :=
  ⟨id, uniqueKey, d.title_en, d.title_ar, d.message_en, d.message_ar,
   d.level, d.target_role, false⟩

/-- The dedup query `SELECT id FROM notifications WHERE unique_key = ?`
of `ensure_notification`, as a Boolean existence check. -/
def hasKey (db : DB) (k : String) : Bool :=
  db.notifications.any (fun n => n.unique_key == k)

/-- Number of stored rows carrying a given `unique_key`. -/
def countKey (db : DB) (k : String) : Nat :=
  (db.notifications.filter (fun n => n.unique_key == k)).length

/-- Source function `ensure_notification` (models.py line 860): insert unless a row with
the same `unique_key` already exists. -/
def ensure_notification (db : DB) (uniqueKey : String) (d : NotifData) : DB :=
  if hasKey db uniqueKey then db
  else { db with
      notifications := db.notifications ++ [mkNotif db.nextNotifId uniqueKey d],
      nextNotifId := db.nextNotifId + 1 }

/-- Python `row['x'] or fallback` on a nullable text column: `None` and
the empty string are both falsy. -/
def pyOr (a : Option String) (b : String) : String :=
  match a with
  | some s => if s = "" then b else s
  | none => b

/-- The status filter of the tender rule's query
(`status IN ('draft','in_preparation','submitted')`). -/
def TENDER_ALERT_STATUSES : List String :=
  ["draft", "in_preparation", "submitted"]

/-- Body of one scan loop iteration: `ensure_notification` when the row's
condition fires, otherwise continue.  A failed date parse makes the
condition false, modelling the `except ValueError: continue`. -/
def scanStep {α : Type} (cond : α → Bool) (key : α → String)
    (data : α → NotifData) (db : DB) (x : α) : DB :=
  if cond x then ensure_notification db (key x) (data x) else db

/-- Row filter of the tender query (models.py lines 877–882):
`submission_deadline IS NOT NULL AND status IN (...)`. -/
def tendersSel (db : DB) : List Tender :=
  db.tenders.filter
    (fun t => !t.submission_deadline.isNull && TENDER_ALERT_STATUSES.contains t.status)

/-- Tender loop guard: the deadline parses and `today <= deadline <= today+5`. -/
def tenderCond (today : Int) (t : Tender) : Bool :=
  match t.submission_deadline.day with
  | some d => decide (today ≤ d) && decide (d ≤ today + 5)
  | none => false

/-- Key `"tender_close_" + str(id)`. -/
def tenderKey (id : Nat) : String :=
  "tender_close_" ++ natStr id

/-- Payload of the tender-closing notification (models.py lines 890–899);
the day count is `(deadline - today).days`. -/
def tenderData (today : Int) (t : Tender) : NotifData :=
  match t.submission_deadline.day with
  | some d =>
    { title_en := "Tender closing soon"
      title_ar := "إقتراب إقفال مناقصة"
      message_en := "Tender " ++ t.title_en ++ " closes in " ++ intStr (d - today) ++ " day(s)."
      message_ar := "المناقصة " ++ pyOr t.title_ar t.title_en ++ " تغلق خلال " ++ intStr (d - today) ++ " يوم"
      level := "warning"
      target_role := "procurement" }
  | none =>
    { title_en := "", title_ar := "", message_en := "", message_ar := "",
      level := "", target_role := "" }

/-- Row set of the invoice query (models.py lines 901–907): inner join
with `projects` on `project_id`, `status != 'paid'`, `due_date IS NOT
NULL`.  An invoice whose project id matches no project row is dropped by
the join (the schema's foreign key makes that unreachable in a live
store). -/
def invoicesSel (db : DB) : List (Invoice × Project) :=
  db.invoices.filterMap
    (fun inv =>
      if inv.status != "paid" && !inv.due_date.isNull then
        (db.projects.find? (fun p => p.id == inv.project_id)).map (fun p => (inv, p))
      else none)

/-- Invoice loop guard: the due date parses and is strictly before today. -/
def invoiceCond (today : Int) (ip : Invoice × Project) : Bool :=
  match ip.1.due_date.day with
  | some d => decide (d < today)
  | none => false

/-- Key `"invoice_due_" + str(id)`. -/
def invoiceKey (id : Nat) : String :=
  "invoice_due_" ++ natStr id

/-- Payload of the overdue-invoice notification (models.py lines 914–923). -/
def invoiceData (ip : Invoice × Project) : NotifData :=
  { title_en := "Invoice overdue"
    title_ar := "فاتورة متأخرة"
    message_en := "Invoice for project " ++ ip.2.name_en ++ " is overdue since " ++ ip.1.due_date.text ++ "."
    message_ar := "فاتورة مشروع " ++ pyOr ip.2.name_ar ip.2.name_en ++ " متأخرة منذ " ++ ip.1.due_date.text ++ "."
    level := "danger"
    target_role := "finance" }

/-- Row filter of the guarantee query (models.py lines 925–927):
`guarantee_end IS NOT NULL`. -/
def projectsSel (db : DB) : List Project :=
  db.projects.filter (fun p => !p.guarantee_end.isNull)

/-- Guarantee loop guard: the end date parses and
`today <= end <= today + 10`. -/
def projectCond (today : Int) (p : Project) : Bool :=
  match p.guarantee_end.day with
  | some d => decide (today ≤ d) && decide (d ≤ today + 10)
  | none => false

/-- Key `"guarantee_due_" + str(id)`. -/
def guaranteeKey (id : Nat) : String :=
  "guarantee_due_" ++ natStr id

/-- Payload of the guarantee-expiry notification (models.py lines 935–944). -/
def projectData (today : Int) (p : Project) : NotifData :=
  match p.guarantee_end.day with
  | some d =>
    { title_en := "Guarantee expiring"
      title_ar := "استحقاق الضمان"
      message_en := "Guarantee for project " ++ p.name_en ++ " expires in " ++ intStr (d - today) ++ " day(s)."
      message_ar := "ضمان مشروع " ++ pyOr p.name_ar p.name_en ++ " ينتهي خلال " ++ intStr (d - today) ++ " يوم"
      level := "info"
      target_role := "project_manager" }
  | none =>
    { title_en := "", title_ar := "", message_en := "", message_ar := "",
      level := "", target_role := "" }

/-- The tenders-closing-soon loop (models.py lines 877–899). -/
def scanTenders (today : Int) (db : DB) : DB :=
  (tendersSel db).foldl
    (scanStep (tenderCond today) (fun t => tenderKey t.id) (tenderData today)) db

/-- The overdue-invoices loop (models.py lines 901–923). -/
def scanInvoices (today : Int) (db : DB) : DB :=
  (invoicesSel db).foldl
    (scanStep (invoiceCond today) (fun ip => invoiceKey ip.1.id) invoiceData) db

/-- The guarantee-expiry loop (models.py lines 925–944). -/
def scanProjects (today : Int) (db : DB) : DB :=
  (projectsSel db).foldl
    (scanStep (projectCond today) (fun p => guaranteeKey p.id) (projectData today)) db

/-- Source function `generate_notifications` (models.py line 873): the three scan loops in
source order, each over rows fetched from the state it starts from (the
loops only write `notifications`, so the fetches see the original domain
rows). -/
def generate_notifications (today : Int) (db : DB) : DB :=
  scanProjects today (scanInvoices today (scanTenders today db))

/-- Source function `list_notifications` (models.py line 947): rows with the given
`target_role`, newest first (`ORDER BY created_at DESC`; later-inserted
rows are newer). -/
def list_notifications (db : DB) (role : String) : List Notification :=
  (db.notifications.filter (fun n => n.target_role == role)).reverse

/-- Source function `mark_notification_read` (models.py line 954): set `is_read = 1` on
the matching row; a no-op for an absent id. -/
def mark_notification_read (db : DB) (notificationId : Nat) : DB :=
  { db with
      notifications := db.notifications.map
        (fun n => if n.id == notificationId then { n with is_read := true } else n) }

/-! ### Mutating domain operations (`models.py` CRUD helpers)

Each helper calls `check_permission` for its area before any storage
access and otherwise performs its insert/update/delete.  The embedding
keeps exactly that structure on the claim-relevant columns; on an error
the unchanged store is simply not returned (the `Except.error` carries no
state).  SQL `UPDATE ... SET <provided fields>` is modelled as applying a
row transformation to the matching row, with the primary key (never in
the field list) forced unchanged. -/

/-- Source function `create_tender` (models.py line 425): area `tenders`. -/
def create_tender (db : DB) (user : UserRec) (t : Tender) : Except PermError (DB × Nat) := do
  let _ ← check_permission user "tenders"
  pure ({ db with
      tenders := db.tenders ++ [{ t with id := db.nextTenderId }],
      nextTenderId := db.nextTenderId + 1 }, db.nextTenderId)

/-- Source function `update_tender` (models.py line 456): area `tenders`. -/
def update_tender (db : DB) (user : UserRec) (tenderId : Nat) (patch : Tender → Tender) :
    Except PermError DB := do
  let _ ← check_permission user "tenders"
  pure { db with
      tenders := db.tenders.map
        (fun t => if t.id == tenderId then { patch t with id := t.id } else t) }

/-- Source function `delete_tender` (models.py line 492): area `tenders`. -/
def delete_tender (db : DB) (user : UserRec) (tenderId : Nat) : Except PermError DB := do
  let _ ← check_permission user "tenders"
  pure { db with tenders := db.tenders.filter (fun t => t.id != tenderId) }

/-- Source function `create_supplier` (models.py line 526): area `suppliers`. -/
def create_supplier (db : DB) (user : UserRec) (s : Supplier) : Except PermError (DB × Nat) := do
  let _ ← check_permission user "suppliers"
  pure ({ db with
      suppliers := db.suppliers ++ [{ s with id := db.nextSupplierId }],
      nextSupplierId := db.nextSupplierId + 1 }, db.nextSupplierId)

/-- Source function `update_supplier` (models.py line 545): area `suppliers`. -/
def update_supplier (db : DB) (user : UserRec) (supplierId : Nat) (patch : Supplier → Supplier) :
    Except PermError DB := do
  let _ ← check_permission user "suppliers"
  pure { db with
      suppliers := db.suppliers.map
        (fun s => if s.id == supplierId then { patch s with id := s.id } else s) }

/-- Source function `delete_supplier` (models.py line 561): area `suppliers`. -/
def delete_supplier (db : DB) (user : UserRec) (supplierId : Nat) : Except PermError DB := do
  let _ ← check_permission user "suppliers"
  pure { db with suppliers := db.suppliers.filter (fun s => s.id != supplierId) }

/-- Source function `create_project` (models.py line 568): area `projects`. -/
def create_project (db : DB) (user : UserRec) (p : Project) : Except PermError (DB × Nat) := do
  let _ ← check_permission user "projects"
  pure ({ db with
      projects := db.projects ++ [{ p with id := db.nextProjectId }],
      nextProjectId := db.nextProjectId + 1 }, db.nextProjectId)

/-- Source function `update_project` (models.py line 604): area `projects`. -/
def update_project (db : DB) (user : UserRec) (projectId : Nat) (patch : Project → Project) :
    Except PermError DB := do
  let _ ← check_permission user "projects"
  pure { db with
      projects := db.projects.map
        (fun p => if p.id == projectId then { patch p with id := p.id } else p) }

/-- Source function `add_invoice` (models.py line 681): the invoice mutation is gated by
the `finance` area. -/
def add_invoice (db : DB) (user : UserRec) (projectId : Nat) (inv : Invoice) :
    Except PermError (DB × Nat) := do
  let _ ← check_permission user "finance"
  pure ({ db with
      invoices := db.invoices ++ [{ inv with id := db.nextInvoiceId, project_id := projectId }],
      nextInvoiceId := db.nextInvoiceId + 1 }, db.nextInvoiceId)

/-- Source function `update_invoice` (models.py line 705): area `finance`. -/
def update_invoice (db : DB) (user : UserRec) (invoiceId : Nat) (patch : Invoice → Invoice) :
    Except PermError DB := do
  let _ ← check_permission user "finance"
  pure { db with
      invoices := db.invoices.map
        (fun i => if i.id == invoiceId then { patch i with id := i.id } else i) }

/-! ### Route layer (`server.py`) — authentication versus area gating

Route handlers resolve the cookie to an optional user (`require_user`
answers 401 for `none`) and then call the model helpers; read routes
call no `check_permission`.  Query-string filtering, joins and
presentation fields are projected away: only who may reach the data
matters to the claims. -/

/-- Boundary error kinds: 401 (`authentication required`) and 403 (a
propagated `PermissionError`). -/
inductive ApiError where
  | unauthorized : ApiError
  | forbidden : PermError → ApiError
deriving DecidableEq

/-- Route helper `require_user` (server.py line 177). -/
def require_user (user? : Option UserRec) : Except ApiError UserRec :=
  match user? with
  | none => Except.error ApiError.unauthorized
  | some u => Except.ok u

/-- Route `GET /api/tenders` (server.py line 242): authentication only, no
area check, then `models.list_tenders`. -/
def api_list_tenders (db : DB) (user? : Option UserRec) : Except ApiError (List Tender) := do
  let _ ← require_user user?
  pure db.tenders

/-- Route `GET /api/projects` (server.py line 322): authentication only. -/
def api_list_projects (db : DB) (user? : Option UserRec) : Except ApiError (List Project) := do
  let _ ← require_user user?
  pure db.projects

/-- Result of `financial_pipeline` (models.py line 742). -/
structure FinancePipeline where
  outstanding_invoices : Int
  amount_received : Int
  amount_invoiced : Int
deriving DecidableEq

/-- Source function `financial_pipeline` (models.py line 742): the three aggregate sums
(`SUM ... or 0` over an empty selection is 0). -/
def financial_pipeline (db : DB) : FinancePipeline :=
  { outstanding_invoices := ((db.invoices.filter (fun i => i.status != "paid")).map Invoice.amount).sum
    amount_received := (db.projects.map Project.amount_received).sum
    amount_invoiced := (db.projects.map Project.amount_invoiced).sum }

/-- Route `GET /api/reports/summary` (server.py line 446): `require_user` only
— no `check_permission` for any area — then `generate_notifications` and
the report payload (projected here to the financial pipeline, the
finance-data component). -/
def api_get_summary (today : Int) (db : DB) (user? : Option UserRec) :
    Except ApiError (DB × FinancePipeline) := do
  let _ ← require_user user?
  let db1 := generate_notifications today db
  pure (db1, financial_pipeline db1)

/-! ### Closed demonstration values used by witnesses and counterexamples -/

/-- A viewer-role user (`ensure_default_users` provisions one). -/
def viewerU : UserRec :=
  ⟨5, "viewer", "viewer"⟩

/-- The admin user. -/
def adminU : UserRec :=
  ⟨1, "admin", "admin"⟩

/-- An empty store. -/
def emptyDB : DB :=
  ⟨[], [], [], [], [], 1, 1, 1, 1, 1⟩

/-- A one-user auth store with no sessions. -/
def authDB0 : AuthDB :=
  ⟨[⟨1, "admin", "admin"⟩], [], 1⟩

/-- A small store exercising all three alert rules at `today = 0`:
a submitted tender closing in 3 days, an unpaid invoice one day overdue
on a project whose guarantee ends in 7 days. -/
def demoDB : DB :=
  { tenders := [⟨1, "Logistics support", some "دعم لوجستي", "submitted", DateCol.ok "2024-01-04" 3⟩]
    suppliers := []
    projects := [⟨1, "Logistics project", none, DateCol.ok "2024-01-08" 7, 0, 0⟩]
    invoices := [⟨1, 1, "unpaid", DateCol.ok "2023-12-30" (-1), 1000⟩]
    notifications := []
    nextTenderId := 2
    nextSupplierId := 1
    nextProjectId := 2
    nextInvoiceId := 2
    nextNotifId := 1 }

/-! ## Lemmas: credential store -/

/-- Python `str.split` never yields the empty list. -/
theorem splitDollar_ne_nil (l : List Char) : splitDollar l ≠ [] := by
  induction l with
  | nil => simp [splitDollar]
  | cons c rest ih =>
    cases h : splitDollar rest with
    | nil => exact absurd h ih
    | cons g gs =>
      simp only [splitDollar, h]
      split <;> simp

/-- Splitting a delimiter-free string returns it whole. -/
theorem splitDollar_of_not_mem {l : List Char} (h : '$' ∉ l) : splitDollar l = [l] := by
  induction l with
  | nil => rfl
  | cons c rest ih =>
    have hc : ¬ c = '$' := fun e => h (e ▸ List.mem_cons_self c rest)
    have hr : '$' ∉ rest := fun m => h (List.mem_cons_of_mem _ m)
    simp [splitDollar, ih hr, hc]

/-- Splitting peels a delimiter-free chunk before the first delimiter. -/
theorem splitDollar_append {a : List Char} (b : List Char) (h : '$' ∉ a) :
    splitDollar (a ++ '$' :: b) = a :: splitDollar b := by
  induction a with
  | nil =>
    cases hb : splitDollar b with
    | nil => exact absurd hb (splitDollar_ne_nil b)
    | cons g gs => simp [splitDollar, hb]
  | cons c a ih =>
    have hc : ¬ c = '$' := fun e => h (e ▸ List.mem_cons_self c a)
    have ha : '$' ∉ a := fun m => h (List.mem_cons_of_mem _ m)
    simp [splitDollar, ih ha, hc]

/-- The hex table round-trips through `hexVal` below 16. -/
theorem hexVal_hexDigitChar {n : Nat} (h : n < 16) : hexVal (hexDigitChar n) = some n := by
  interval_cases n <;> decide

/-- Round trip `bytes.fromhex(bs.hex()) == bs` for genuine byte strings. -/
theorem bytesFromHex_bytesHex {bs : List Nat} (h : ∀ b ∈ bs, b < 256) :
    bytesFromHex (bytesHex bs) = some bs := by
  induction bs with
  | nil => rfl
  | cons b bs ih =>
    have hb : b < 256 := h b (List.mem_cons_self b bs)
    have h1 : b / 16 < 16 := Nat.div_lt_of_lt_mul (by omega)
    have h2 : b % 16 < 16 := Nat.mod_lt _ (by omega)
    have e : bytesHex (b :: bs) = hexDigitChar (b / 16) :: hexDigitChar (b % 16) :: bytesHex bs := by
      simp [bytesHex, byteHex]
    rw [e]
    simp only [bytesFromHex, hexVal_hexDigitChar h1, hexVal_hexDigitChar h2,
      ih (fun x hx => h x (List.mem_cons_of_mem _ hx))]
    have : 16 * (b / 16) + b % 16 = b := by omega
    rw [this]

/-- Hex rendering is injective on genuine byte strings. -/
theorem bytesHex_inj {bs bs' : List Nat} (h : ∀ b ∈ bs, b < 256)
    (h' : ∀ b ∈ bs', b < 256) (he : bytesHex bs = bytesHex bs') : bs = bs' := by
  have := congrArg bytesFromHex he
  rw [bytesFromHex_bytesHex h, bytesFromHex_bytesHex h'] at this
  exact Option.some.inj this

/-- Every character of a hex rendering is a hex digit. -/
theorem mem_bytesHex_isSome {bs : List Nat} (h : ∀ b ∈ bs, b < 256) :
    ∀ c ∈ bytesHex bs, (hexVal c).isSome := by
  induction bs with
  | nil => intro c hc; simp [bytesHex] at hc
  | cons b bs ih =>
    intro c hc
    have hb : b < 256 := h b (List.mem_cons_self b bs)
    have h1 : b / 16 < 16 := Nat.div_lt_of_lt_mul (by omega)
    have h2 : b % 16 < 16 := Nat.mod_lt _ (by omega)
    have e : bytesHex (b :: bs) = hexDigitChar (b / 16) :: hexDigitChar (b % 16) :: bytesHex bs := by
      simp [bytesHex, byteHex]
    rw [e] at hc
    rcases List.mem_cons.mp hc with h' | hc
    · rw [h', hexVal_hexDigitChar h1]; rfl
    rcases List.mem_cons.mp hc with h' | hc
    · rw [h', hexVal_hexDigitChar h2]; rfl
    · exact ih (fun x hx => h x (List.mem_cons_of_mem _ hx)) c hc

/-- A hex rendering never contains the `$` delimiter. -/
theorem not_dollar_mem_bytesHex {bs : List Nat} (h : ∀ b ∈ bs, b < 256) :
    '$' ∉ bytesHex bs := by
  intro hm
  have := mem_bytesHex_isSome h '$' hm
  exact absurd this (by decide)

/-- Evaluating `verify_password` on a value produced by `hash_password` reduces to
the digest comparison: the split recovers the salt hex and the digest,
and `bytes.fromhex` recovers the salt. -/
theorem verify_hash_eq (kdf : List Char → List Nat → List Char)
    (salt : List Nat) (p q : List Char)
    (hs : ∀ b ∈ salt, b < 256) (hd : '$' ∉ kdf p salt) :
    verify_password kdf q (hash_password kdf salt p) =
      compareDigest (kdf q salt) (kdf p salt) := by
  unfold verify_password hash_password
  rw [splitDollar_append _ (not_dollar_mem_bytesHex hs), splitDollar_of_not_mem hd]
  simp [bytesFromHex_bytesHex hs]

/-! ## Lemmas: decimal id rendering and notification keys -/

/-- Appending one digit multiplies the accumulated value by ten. -/
theorem decVal_append_digit (l : List Char) (c : Char) :
    decVal (l ++ [c]) = 10 * decVal l + (c.toNat - 48) := by
  simp [decVal, List.foldl_append]

/-- The digit characters below ten decode back to their value. -/
theorem toNat_hexDigitChar_sub {m : Nat} (h : m < 10) :
    (hexDigitChar m).toNat - 48 = m := by
  interval_cases m <;> decide

/-- With enough fuel, the digit string of `n` evaluates back to `n`. -/
theorem decVal_decReprAux {fuel n : Nat} (h : n < fuel) :
    decVal (decReprAux fuel n) = n := by
  induction fuel generalizing n with
  | zero => omega
  | succ fuel ih =>
    rw [decReprAux]
    split
    · rename_i h10
      have : decVal [hexDigitChar n] = (hexDigitChar n).toNat - 48 := by
        simp [decVal]
      rw [this, toNat_hexDigitChar_sub h10]
    · rename_i h10
      have hlt : n / 10 < fuel := by omega
      rw [decVal_append_digit, ih hlt, toNat_hexDigitChar_sub (Nat.mod_lt _ (by omega))]
      omega

/-- The decimal rendering round-trips. -/
theorem decVal_decRepr (n : Nat) : decVal (decRepr n) = n :=
  decVal_decReprAux (Nat.lt_succ_self n)

/-- Decimal rendering is injective. -/
theorem decRepr_inj {a b : Nat} (h : decRepr a = decRepr b) : a = b := by
  have := congrArg decVal h
  rwa [decVal_decRepr, decVal_decRepr] at this

/-- Rendering `str(i)` is injective on ids. -/
theorem natStr_inj {a b : Nat} (h : natStr a = natStr b) : a = b :=
  decRepr_inj (congrArg String.data h)

/-- Character data of a prefixed key. -/
theorem key_data (pre : String) (n : Nat) :
    (pre ++ natStr n).data = pre.data ++ decRepr n :=
  String.data_append pre (natStr n)

/-- Tender keys determine the tender id. -/
theorem tenderKey_inj {a b : Nat} (h : tenderKey a = tenderKey b) : a = b := by
  have hd := congrArg String.data h
  rw [tenderKey, tenderKey, key_data, key_data] at hd
  exact decRepr_inj (List.append_cancel_left hd)

/-- Invoice keys determine the invoice id. -/
theorem invoiceKey_inj {a b : Nat} (h : invoiceKey a = invoiceKey b) : a = b := by
  have hd := congrArg String.data h
  rw [invoiceKey, invoiceKey, key_data, key_data] at hd
  exact decRepr_inj (List.append_cancel_left hd)

/-- Guarantee keys determine the project id. -/
theorem guaranteeKey_inj {a b : Nat} (h : guaranteeKey a = guaranteeKey b) : a = b := by
  have hd := congrArg String.data h
  rw [guaranteeKey, guaranteeKey, key_data, key_data] at hd
  exact decRepr_inj (List.append_cancel_left hd)

/-- The three rules use disjoint key namespaces: tender vs invoice. -/
theorem tenderKey_ne_invoiceKey (a b : Nat) : tenderKey a ≠ invoiceKey b := by
  intro h
  have ha : (tenderKey a).data.head? = some 't' := by
    rw [tenderKey, String.data_append]; rfl
  have hb : (invoiceKey b).data.head? = some 'i' := by
    rw [invoiceKey, String.data_append]; rfl
  rw [h, hb] at ha
  exact absurd ha (by decide)

/-- Disjoint key namespaces: tender vs guarantee. -/
theorem tenderKey_ne_guaranteeKey (a b : Nat) : tenderKey a ≠ guaranteeKey b := by
  intro h
  have ha : (tenderKey a).data.head? = some 't' := by
    rw [tenderKey, String.data_append]; rfl
  have hb : (guaranteeKey b).data.head? = some 'g' := by
    rw [guaranteeKey, String.data_append]; rfl
  rw [h, hb] at ha
  exact absurd ha (by decide)

/-- Disjoint key namespaces: invoice vs guarantee. -/
theorem invoiceKey_ne_guaranteeKey (a b : Nat) : invoiceKey a ≠ guaranteeKey b := by
  intro h
  have ha : (invoiceKey a).data.head? = some 'i' := by
    rw [invoiceKey, String.data_append]; rfl
  have hb : (guaranteeKey b).data.head? = some 'g' := by
    rw [guaranteeKey, String.data_append]; rfl
  rw [h, hb] at ha
  exact absurd ha (by decide)

/-! ## Lemmas: notification store -/

/-- The function `ensure_notification` writes only the `notifications` table. -/
theorem ensure_core (db : DB) (k : String) (d : NotifData) :
    (ensure_notification db k d).core = db.core := by
  unfold ensure_notification
  split <;> rfl

/-- The function `ensure_notification` only ever appends rows. -/
theorem ensure_notif_append (db : DB) (k : String) (d : NotifData) :
    ∃ l, (ensure_notification db k d).notifications = db.notifications ++ l ∧
      ∀ n ∈ l, ∃ nid, n = mkNotif nid k d := by
  unfold ensure_notification
  split
  · exact ⟨[], by simp⟩
  · refine ⟨[mkNotif db.nextNotifId k d], rfl, ?_⟩
    intro n hn
    rw [List.mem_singleton] at hn
    exact ⟨db.nextNotifId, hn⟩

/-- Key presence survives any extension of the table. -/
theorem hasKey_append {db db' : DB} {k : String} {l : List Notification}
    (h : db'.notifications = db.notifications ++ l) (hk : hasKey db k = true) :
    hasKey db' k = true := by
  unfold hasKey at *
  rw [h, List.any_append, hk]
  rfl

/-- After `ensure_notification db k d` the key `k` is present. -/
theorem ensure_hasKey_self (db : DB) (k : String) (d : NotifData) :
    hasKey (ensure_notification db k d) k = true := by
  unfold ensure_notification
  split
  · assumption
  · unfold hasKey
    simp [List.any_append, mkNotif]

/-- The dedup check: an existing key makes `ensure_notification` a no-op. -/
theorem ensure_of_hasKey {db : DB} {k : String} (d : NotifData)
    (h : hasKey db k = true) : ensure_notification db k d = db := by
  unfold ensure_notification
  simp [h]

/-- Inserting under a different key does not create `k`. -/
theorem hasKey_ensure_other {db : DB} {k k' : String} (d : NotifData)
    (h : k' ≠ k) : hasKey (ensure_notification db k' d) k = hasKey db k := by
  unfold ensure_notification
  split
  · rfl
  · unfold hasKey
    simp [List.any_append, mkNotif, h]

/-- Inserting under a different key keeps the count of `k` rows. -/
theorem countKey_ensure_other {db : DB} {k k' : String} (d : NotifData)
    (h : k' ≠ k) : countKey (ensure_notification db k' d) k = countKey db k := by
  unfold ensure_notification
  split
  · rfl
  · unfold countKey
    simp [List.filter_append, mkNotif, h]

/-- The row actually inserted when the key is fresh. -/
theorem ensure_insert {db : DB} {k : String} (d : NotifData)
    (h : hasKey db k = false) :
    (ensure_notification db k d).notifications =
      db.notifications ++ [mkNotif db.nextNotifId k d] := by
  unfold ensure_notification
  simp [h]

/-- A fresh key has no stored rows. -/
theorem countKey_eq_zero {db : DB} {k : String} (h : hasKey db k = false) :
    countKey db k = 0 := by
  unfold hasKey at h
  rw [List.any_eq_false] at h
  unfold countKey
  rw [List.filter_eq_nil_iff.mpr h]
  rfl

/-- Inserting a fresh key yields exactly one row for it. -/
theorem countKey_ensure_self {db : DB} {k : String} (d : NotifData)
    (h : hasKey db k = false) : countKey (ensure_notification db k d) k = 1 := by
  unfold countKey
  rw [ensure_insert d h, List.filter_append]
  have h0 : countKey db k = 0 := countKey_eq_zero h
  unfold countKey at h0
  have : db.notifications.filter (fun n => n.unique_key == k) = [] :=
    List.length_eq_zero.mp h0
  rw [this]
  simp [mkNotif]

/-- A present key keeps its row count through any `ensure_notification`. -/
theorem countKey_ensure_of_hasKey {db : DB} {k k' : String} (d : NotifData)
    (h : hasKey db k = true) :
    countKey (ensure_notification db k' d) k = countKey db k := by
  by_cases hk : k' = k
  · rw [hk, ensure_of_hasKey d h]
  · exact countKey_ensure_other d hk

/-- Key absence characterised through the key column. -/
theorem hasKey_eq_false_iff {db : DB} {k : String} :
    hasKey db k = false ↔ k ∉ db.notifications.map Notification.unique_key := by
  unfold hasKey
  rw [List.any_eq_false]
  constructor
  · intro h hm
    rcases List.mem_map.mp hm with ⟨n, hn, he⟩
    have hne := h n hn
    simp only [beq_iff_eq] at hne
    exact hne he
  · intro h n hn
    simp only [beq_iff_eq]
    intro he
    exact h (List.mem_map.mpr ⟨n, hn, he⟩)

/-- The function `ensure_notification` preserves distinctness of the key column. -/
theorem ensure_nodup {db : DB} {k : String} (d : NotifData)
    (h : (db.notifications.map Notification.unique_key).Nodup) :
    ((ensure_notification db k d).notifications.map Notification.unique_key).Nodup := by
  unfold ensure_notification
  split
  · exact h
  · rename_i hk
    rw [Bool.not_eq_true] at hk
    simp only [List.map_append]
    rw [List.nodup_append]
    refine ⟨h, by simp [mkNotif], ?_⟩
    intro a ha hb
    simp [mkNotif] at hb
    subst hb
    exact hasKey_eq_false_iff.mp hk ha

/-! ## Lemmas: one scan loop (`foldl` over a fetched row list) -/

section ScanLemmas

variable {α : Type} {cond : α → Bool} {key : α → String} {data : α → NotifData}

/-- One loop iteration writes only the `notifications` table. -/
theorem scanStep_core (db : DB) (x : α) :
    (scanStep cond key data db x).core = db.core := by
  unfold scanStep
  split
  · exact ensure_core db (key x) (data x)
  · rfl

/-- A whole loop writes only the `notifications` table. -/
theorem scanFold_core (l : List α) (db : DB) :
    (l.foldl (scanStep cond key data) db).core = db.core := by
  induction l generalizing db with
  | nil => rfl
  | cons x xs ih => rw [List.foldl_cons, ih, scanStep_core]

/-- A loop only appends rows, and every appended row was built from some
processed row that fired. -/
theorem scanFold_notif_append (l : List α) (db : DB) :
    ∃ ext, (l.foldl (scanStep cond key data) db).notifications = db.notifications ++ ext ∧
      ∀ n ∈ ext, ∃ x ∈ l, cond x = true ∧ ∃ nid, n = mkNotif nid (key x) (data x) := by
  induction l generalizing db with
  | nil => exact ⟨[], by simp⟩
  | cons x xs ih =>
    rw [List.foldl_cons]
    rcases ih (scanStep cond key data db x) with ⟨ext, he, hc⟩
    unfold scanStep at he ⊢
    by_cases hx : cond x = true
    · rw [if_pos hx] at he ⊢
      rcases ensure_notif_append db (key x) (data x) with ⟨l1, he1, hc1⟩
      refine ⟨l1 ++ ext, ?_, ?_⟩
      · rw [he, he1, List.append_assoc]
      · intro n hn
        rcases List.mem_append.mp hn with hn | hn
        · rcases hc1 n hn with ⟨nid, hnid⟩
          exact ⟨x, List.mem_cons_self x xs, hx, nid, hnid⟩
        · rcases hc n hn with ⟨y, hy, hcy, nid, hnid⟩
          exact ⟨y, List.mem_cons_of_mem _ hy, hcy, nid, hnid⟩
    · rw [if_neg hx] at he ⊢
      refine ⟨ext, he, ?_⟩
      intro n hn
      rcases hc n hn with ⟨y, hy, hcy, nid, hnid⟩
      exact ⟨y, List.mem_cons_of_mem _ hy, hcy, nid, hnid⟩

/-- Key presence survives a loop. -/
theorem scanFold_hasKey_mono (l : List α) {db : DB} {k : String}
    (h : hasKey db k = true) :
    hasKey (l.foldl (scanStep cond key data) db) k = true := by
  rcases scanFold_notif_append l db with ⟨ext, he, -⟩
  exact hasKey_append he h

/-- A row that fires leaves its key present after the loop. -/
theorem scanFold_fires (l : List α) (db : DB) {x : α}
    (hx : x ∈ l) (hc : cond x = true) :
    hasKey (l.foldl (scanStep cond key data) db) (key x) = true := by
  induction l generalizing db with
  | nil => cases hx
  | cons y ys ih =>
    rw [List.foldl_cons]
    rcases List.mem_cons.mp hx with h | h
    · subst h
      apply scanFold_hasKey_mono
      unfold scanStep
      rw [if_pos hc]
      exact ensure_hasKey_self db (key x) (data x)
    · exact ih _ h

/-- A loop whose every firing key is already present is the identity. -/
theorem scanFold_id {l : List α} {db : DB}
    (h : ∀ x ∈ l, cond x = true → hasKey db (key x) = true) :
    l.foldl (scanStep cond key data) db = db := by
  induction l with
  | nil => rfl
  | cons x xs ih =>
    rw [List.foldl_cons]
    have hs : scanStep cond key data db x = db := by
      unfold scanStep
      split
      · exact ensure_of_hasKey _ (h x (List.mem_cons_self x xs) (by assumption))
      · rfl
    rw [hs]
    exact ih (fun y hy => h y (List.mem_cons_of_mem _ hy))

/-- A loop none of whose firing rows use key `k` leaves `k`'s presence
unchanged. -/
theorem scanFold_hasKey_other {l : List α} {k : String} (db : DB)
    (h : ∀ x ∈ l, cond x = true → key x ≠ k) :
    hasKey (l.foldl (scanStep cond key data) db) k = hasKey db k := by
  induction l generalizing db with
  | nil => rfl
  | cons x xs ih =>
    rw [List.foldl_cons, ih _ (fun y hy => h y (List.mem_cons_of_mem _ hy))]
    unfold scanStep
    split
    · exact hasKey_ensure_other _ (h x (List.mem_cons_self x xs) (by assumption))
    · rfl

/-- Same stability for the row count of `k`. -/
theorem scanFold_countKey_other {l : List α} {k : String} (db : DB)
    (h : ∀ x ∈ l, cond x = true → key x ≠ k) :
    countKey (l.foldl (scanStep cond key data) db) k = countKey db k := by
  induction l generalizing db with
  | nil => rfl
  | cons x xs ih =>
    rw [List.foldl_cons, ih _ (fun y hy => h y (List.mem_cons_of_mem _ hy))]
    unfold scanStep
    split
    · exact countKey_ensure_other _ (h x (List.mem_cons_self x xs) (by assumption))
    · rfl

/-- Once a key is present its row count never changes again. -/
theorem scanFold_countKey_of_hasKey (l : List α) {db : DB} {k : String}
    (h : hasKey db k = true) :
    countKey (l.foldl (scanStep cond key data) db) k = countKey db k := by
  induction l generalizing db with
  | nil => rfl
  | cons x xs ih =>
    rw [List.foldl_cons]
    have hstep : hasKey (scanStep cond key data db x) k = true := by
      unfold scanStep
      split
      · rcases ensure_notif_append db (key x) (data x) with ⟨l1, he1, -⟩
        exact hasKey_append he1 h
      · exact h
    rw [ih hstep]
    unfold scanStep
    split
    · exact countKey_ensure_of_hasKey _ h
    · rfl

/-- A loop preserves distinctness of the key column. -/
theorem scanFold_nodup (l : List α) {db : DB}
    (h : (db.notifications.map Notification.unique_key).Nodup) :
    (((l.foldl (scanStep cond key data) db).notifications.map
        Notification.unique_key)).Nodup := by
  induction l generalizing db with
  | nil => exact h
  | cons x xs ih =>
    rw [List.foldl_cons]
    apply ih
    unfold scanStep
    split
    · exact ensure_nodup _ h
    · exact h

/-- If `k` is fresh and exactly one processed row carries key `k` and
fires, then after the loop there is exactly one `k`-row, carrying that
row's payload. -/
theorem scanFold_insert {l : List α} {db : DB} {k : String} {x : α}
    (hfresh : hasKey db k = false) (hx : x ∈ l) (hc : cond x = true)
    (hk : key x = k) (huniq : ∀ y ∈ l, cond y = true → key y = k → y = x) :
    ∃ nid, mkNotif nid k (data x) ∈ (l.foldl (scanStep cond key data) db).notifications ∧
      countKey (l.foldl (scanStep cond key data) db) k = 1 := by
  induction l generalizing db with
  | nil => cases hx
  | cons y ys ih =>
    rw [List.foldl_cons]
    by_cases hyk : cond y = true ∧ key y = k
    · have hyx : y = x := huniq y (List.mem_cons_self y ys) hyk.1 hyk.2
      subst hyx
      have hstep : scanStep cond key data db y = ensure_notification db k (data y) := by
        unfold scanStep
        rw [if_pos hyk.1, hyk.2]
      rw [hstep]
      have hrow := ensure_insert (data y) hfresh
      have hmem : mkNotif db.nextNotifId k (data y) ∈
          (ensure_notification db k (data y)).notifications := by
        rw [hrow]
        exact List.mem_append_right _ (List.mem_singleton.mpr rfl)
      have hhk : hasKey (ensure_notification db k (data y)) k = true :=
        ensure_hasKey_self db k (data y)
      refine ⟨db.nextNotifId, ?_, ?_⟩
      · rcases scanFold_notif_append ys (ensure_notification db k (data y)) with ⟨ext, he, -⟩
        rw [he]
        exact List.mem_append_left _ hmem
      · rw [scanFold_countKey_of_hasKey ys hhk]
        exact countKey_ensure_self (data y) hfresh
    · have hx' : x ∈ ys := by
        rcases List.mem_cons.mp hx with h | h
        · exfalso
          subst h
          exact hyk ⟨hc, hk⟩
        · exact h
      have hstep : hasKey (scanStep cond key data db y) k = false := by
        unfold scanStep
        split
        · rename_i hcy
          have hky : key y ≠ k := fun e => hyk ⟨hcy, e⟩
          rw [hasKey_ensure_other _ hky]
          exact hfresh
        · exact hfresh
      exact ih hstep hx' (fun z hz => huniq z (List.mem_cons_of_mem _ hz))

end ScanLemmas

/-! ## Lemmas: the full engine run -/

/-- Tenders component of a preserved core. -/
theorem core_tenders {db db' : DB} (h : db'.core = db.core) :
    db'.tenders = db.tenders :=
  congrArg (fun x => x.1) h

/-- Projects component of a preserved core. -/
theorem core_projects {db db' : DB} (h : db'.core = db.core) :
    db'.projects = db.projects :=
  congrArg (fun x => x.2.2.1) h

/-- Invoices component of a preserved core. -/
theorem core_invoices {db db' : DB} (h : db'.core = db.core) :
    db'.invoices = db.invoices :=
  congrArg (fun x => x.2.2.2.1) h

/-- The tender fetch depends only on the `tenders` table. -/
theorem tendersSel_congr {db db' : DB} (h : db'.tenders = db.tenders) :
    tendersSel db' = tendersSel db := by
  unfold tendersSel
  rw [h]

/-- The invoice fetch depends only on `invoices` and `projects`. -/
theorem invoicesSel_congr {db db' : DB} (hi : db'.invoices = db.invoices)
    (hp : db'.projects = db.projects) : invoicesSel db' = invoicesSel db := by
  unfold invoicesSel
  rw [hi, hp]

/-- The guarantee fetch depends only on the `projects` table. -/
theorem projectsSel_congr {db db' : DB} (hp : db'.projects = db.projects) :
    projectsSel db' = projectsSel db := by
  unfold projectsSel
  rw [hp]

/-- The tender loop writes only the `notifications` table. -/
theorem scanTenders_core (today : Int) (db : DB) :
    (scanTenders today db).core = db.core :=
  scanFold_core _ _

/-- The invoice loop writes only the `notifications` table. -/
theorem scanInvoices_core (today : Int) (db : DB) :
    (scanInvoices today db).core = db.core :=
  scanFold_core _ _

/-- The guarantee loop writes only the `notifications` table. -/
theorem scanProjects_core (today : Int) (db : DB) :
    (scanProjects today db).core = db.core :=
  scanFold_core _ _

/-- The engine writes only the `notifications` table. -/
theorem gen_core (today : Int) (db : DB) :
    (generate_notifications today db).core = db.core := by
  unfold generate_notifications
  rw [scanProjects_core, scanInvoices_core, scanTenders_core]

/-- Key presence survives a full engine run. -/
theorem gen_hasKey_mono {today : Int} {db : DB} {k : String}
    (h : hasKey db k = true) :
    hasKey (generate_notifications today db) k = true := by
  unfold generate_notifications scanProjects scanInvoices scanTenders
  exact scanFold_hasKey_mono _ (scanFold_hasKey_mono _ (scanFold_hasKey_mono _ h))

/-- A fetched tender whose guard fires has its key present after the run. -/
theorem gen_fires_tender {today : Int} {db : DB} {t : Tender}
    (ht : t ∈ tendersSel db) (hc : tenderCond today t = true) :
    hasKey (generate_notifications today db) (tenderKey t.id) = true := by
  have h1 : hasKey (scanTenders today db) (tenderKey t.id) = true := by
    unfold scanTenders
    exact scanFold_fires _ _ ht hc
  unfold generate_notifications scanProjects scanInvoices
  exact scanFold_hasKey_mono _ (scanFold_hasKey_mono _ h1)

/-- A fetched joined invoice row whose guard fires has its key present
after the run. -/
theorem gen_fires_invoice {today : Int} {db : DB} {ip : Invoice × Project}
    (hip : ip ∈ invoicesSel db) (hc : invoiceCond today ip = true) :
    hasKey (generate_notifications today db) (invoiceKey ip.1.id) = true := by
  have hsel : invoicesSel (scanTenders today db) = invoicesSel db :=
    invoicesSel_congr (core_invoices (scanTenders_core today db))
      (core_projects (scanTenders_core today db))
  have h1 : hasKey (scanInvoices today (scanTenders today db)) (invoiceKey ip.1.id) = true := by
    unfold scanInvoices
    rw [hsel]
    exact scanFold_fires _ _ hip hc
  unfold generate_notifications scanProjects
  exact scanFold_hasKey_mono _ h1

/-- A fetched project whose guard fires has its key present after the run. -/
theorem gen_fires_project {today : Int} {db : DB} {p : Project}
    (hp : p ∈ projectsSel db) (hc : projectCond today p = true) :
    hasKey (generate_notifications today db) (guaranteeKey p.id) = true := by
  have hpr : (scanInvoices today (scanTenders today db)).projects = db.projects := by
    rw [core_projects (scanInvoices_core _ _), core_projects (scanTenders_core _ _)]
  have hsel : projectsSel (scanInvoices today (scanTenders today db)) = projectsSel db :=
    projectsSel_congr hpr
  unfold generate_notifications scanProjects
  rw [hsel]
  exact scanFold_fires _ _ hp hc

/-- The engine is a no-op on any store that agrees with `db` on the three
domain tables and already holds every key the run over `db` establishes.
This is the common core of idempotence and of read-state preservation. -/
theorem gen_noop_of {today : Int} {db db2 : DB}
    (hT : db2.tenders = db.tenders) (hP : db2.projects = db.projects)
    (hI : db2.invoices = db.invoices)
    (hk : ∀ k, hasKey (generate_notifications today db) k = true → hasKey db2 k = true) :
    generate_notifications today db2 = db2 := by
  have hT1 : scanTenders today db2 = db2 := by
    unfold scanTenders
    apply scanFold_id
    intro t htm hc
    apply hk
    rw [tendersSel_congr hT] at htm
    exact gen_fires_tender htm hc
  have hI1 : scanInvoices today db2 = db2 := by
    unfold scanInvoices
    apply scanFold_id
    intro ip hm hc
    apply hk
    rw [invoicesSel_congr hI hP] at hm
    exact gen_fires_invoice hm hc
  have hP1 : scanProjects today db2 = db2 := by
    unfold scanProjects
    apply scanFold_id
    intro p hm hc
    apply hk
    rw [projectsSel_congr hP] at hm
    exact gen_fires_project hm hc
  unfold generate_notifications
  rw [hT1, hI1, hP1]

/-- Idempotence of the engine. -/
theorem gen_idem (today : Int) (db : DB) :
    generate_notifications today (generate_notifications today db) =
      generate_notifications today db :=
  gen_noop_of (core_tenders (gen_core today db)) (core_projects (gen_core today db))
    (core_invoices (gen_core today db)) (fun _ hk => hk)

/-- Target role of an inserted row is the payload's role. -/
theorem mkNotif_role (nid : Nat) (k : String) (d : NotifData) :
    (mkNotif nid k d).target_role = d.target_role :=
  rfl

/-- A firing tender guard means the payload targets `procurement`. -/
theorem tenderData_role {today : Int} {t : Tender} (hc : tenderCond today t = true) :
    (tenderData today t).target_role = "procurement" := by
  unfold tenderCond at hc
  cases h : t.submission_deadline.day with
  | none => rw [h] at hc; exact absurd hc (by simp)
  | some d => unfold tenderData; rw [h]

/-- The invoice payload targets `finance`. -/
theorem invoiceData_role (ip : Invoice × Project) :
    (invoiceData ip).target_role = "finance" :=
  rfl

/-- A firing guarantee guard means the payload targets `project_manager`. -/
theorem projectData_role {today : Int} {p : Project} (hc : projectCond today p = true) :
    (projectData today p).target_role = "project_manager" := by
  unfold projectCond at hc
  cases h : p.guarantee_end.day with
  | none => rw [h] at hc; exact absurd hc (by simp)
  | some d => unfold projectData; rw [h]

/-- The tender loop appends only procurement-targeted rows. -/
theorem scanTenders_notif_append (today : Int) (db : DB) :
    ∃ ext, (scanTenders today db).notifications = db.notifications ++ ext ∧
      ∀ n ∈ ext, n.target_role = "procurement" := by
  obtain ⟨e, he, hr⟩ := scanFold_notif_append (tendersSel db) db
  refine ⟨e, he, ?_⟩
  intro n hn
  obtain ⟨x, _, hcx, nid, hnid⟩ := hr n hn
  rw [hnid, mkNotif_role]
  exact tenderData_role hcx

/-- The invoice loop appends only finance-targeted rows. -/
theorem scanInvoices_notif_append (today : Int) (db : DB) :
    ∃ ext, (scanInvoices today db).notifications = db.notifications ++ ext ∧
      ∀ n ∈ ext, n.target_role = "finance" := by
  obtain ⟨e, he, hr⟩ := scanFold_notif_append (invoicesSel db) db
  refine ⟨e, he, ?_⟩
  intro n hn
  obtain ⟨x, _, hcx, nid, hnid⟩ := hr n hn
  rw [hnid, mkNotif_role]
  exact invoiceData_role x

/-- The guarantee loop appends only project-manager-targeted rows. -/
theorem scanProjects_notif_append (today : Int) (db : DB) :
    ∃ ext, (scanProjects today db).notifications = db.notifications ++ ext ∧
      ∀ n ∈ ext, n.target_role = "project_manager" := by
  obtain ⟨e, he, hr⟩ := scanFold_notif_append (projectsSel db) db
  refine ⟨e, he, ?_⟩
  intro n hn
  obtain ⟨x, _, hcx, nid, hnid⟩ := hr n hn
  rw [hnid, mkNotif_role]
  exact projectData_role hcx

/-- A full run appends rows only, all targeted at one of the three
rule roles. -/
theorem gen_notif_append (today : Int) (db : DB) :
    ∃ ext, (generate_notifications today db).notifications = db.notifications ++ ext ∧
      ∀ n ∈ ext, n.target_role ∈ ["procurement", "finance", "project_manager"] := by
  obtain ⟨e1, he1, hr1⟩ := scanTenders_notif_append today db
  obtain ⟨e2, he2, hr2⟩ := scanInvoices_notif_append today (scanTenders today db)
  obtain ⟨e3, he3, hr3⟩ := scanProjects_notif_append today (scanInvoices today (scanTenders today db))
  refine ⟨e1 ++ e2 ++ e3, ?_, ?_⟩
  · unfold generate_notifications
    rw [he3, he2, he1]
    simp [List.append_assoc]
  · intro n hn
    rcases List.mem_append.mp hn with hn | hn
    · rcases List.mem_append.mp hn with hn | hn
      · rw [hr1 n hn]; simp
      · rw [hr2 n hn]; simp
    · rw [hr3 n hn]; simp

/-- The engine preserves distinctness of the key column. -/
theorem gen_nodup (today : Int) {db : DB}
    (h : (db.notifications.map Notification.unique_key).Nodup) :
    ((generate_notifications today db).notifications.map Notification.unique_key).Nodup := by
  unfold generate_notifications scanProjects scanInvoices scanTenders
  exact scanFold_nodup _ (scanFold_nodup _ (scanFold_nodup _ h))

/-- The function `mark_notification_read` leaves the tenders table untouched. -/
theorem markRead_tenders (db : DB) (nid : Nat) :
    (mark_notification_read db nid).tenders = db.tenders :=
  rfl

/-- The function `mark_notification_read` leaves the projects table untouched. -/
theorem markRead_projects (db : DB) (nid : Nat) :
    (mark_notification_read db nid).projects = db.projects :=
  rfl

/-- The function `mark_notification_read` leaves the invoices table untouched. -/
theorem markRead_invoices (db : DB) (nid : Nat) :
    (mark_notification_read db nid).invoices = db.invoices :=
  rfl

/-- The function `mark_notification_read` does not disturb the key column. -/
theorem markRead_hasKey (db : DB) (nid : Nat) (k : String) :
    hasKey (mark_notification_read db nid) k = hasKey db k := by
  unfold mark_notification_read hasKey
  rw [List.any_map]
  congr 1
  funext n
  simp only [Function.comp_apply]
  split <;> rfl

/-! ## Lemmas: fetched row sets and rule guards -/

/-- A tender with an alert status and a parsing deadline is fetched. -/
theorem mem_tendersSel {db : DB} {t : Tender} (ht : t ∈ db.tenders)
    (hst : t.status ∈ TENDER_ALERT_STATUSES) {s : String} {d : Int}
    (hdl : t.submission_deadline = DateCol.ok s d) : t ∈ tendersSel db := by
  unfold tendersSel
  refine List.mem_filter.mpr ⟨ht, ?_⟩
  rw [hdl]
  simp only [DateCol.isNull, Bool.not_false, Bool.true_and]
  simp
  exact hst

/-- A fetched tender is a stored tender with an alert status. -/
theorem of_mem_tendersSel {db : DB} {t : Tender} (h : t ∈ tendersSel db) :
    t ∈ db.tenders ∧ t.status ∈ TENDER_ALERT_STATUSES := by
  obtain ⟨hm, hb⟩ := List.mem_filter.mp h
  rw [Bool.and_eq_true] at hb
  exact ⟨hm, List.mem_of_elem_eq_true hb.2⟩

/-- A stored unpaid invoice with a dated due date and an existing project
is fetched, joined with that project. -/
theorem mem_invoicesSel {db : DB} {inv : Invoice} {p : Project}
    (hi : inv ∈ db.invoices) (hst : inv.status ≠ "paid") {s : String} {d : Int}
    (hdd : inv.due_date = DateCol.ok s d)
    (hf : db.projects.find? (fun q => q.id == inv.project_id) = some p) :
    (inv, p) ∈ invoicesSel db := by
  unfold invoicesSel
  refine List.mem_filterMap.mpr ⟨inv, hi, ?_⟩
  rw [hdd, if_pos (by simp [bne_iff_ne, hst, DateCol.isNull]), hf]
  rfl

/-- A fetched joined row is a stored invoice joined to the project its
`project_id` finds. -/
theorem of_mem_invoicesSel {db : DB} {ip : Invoice × Project} (h : ip ∈ invoicesSel db) :
    ip.1 ∈ db.invoices ∧
      db.projects.find? (fun q => q.id == ip.1.project_id) = some ip.2 := by
  obtain ⟨a, ha, he⟩ := List.mem_filterMap.mp h
  by_cases hg : (a.status != "paid" && !a.due_date.isNull) = true
  · rw [if_pos hg] at he
    cases hfind : db.projects.find? (fun q => q.id == a.project_id) with
    | none => rw [hfind] at he; simp at he
    | some q =>
      rw [hfind] at he
      simp only [Option.map_some'] at he
      have he2 : (a, q) = ip := Option.some.inj he
      rw [← he2]
      exact ⟨ha, hfind⟩
  · rw [if_neg hg] at he
    simp at he

/-- A project with a non-null guarantee end is fetched. -/
theorem mem_projectsSel {db : DB} {p : Project}
    (hp : p ∈ db.projects) (hn : p.guarantee_end.isNull = false) :
    p ∈ projectsSel db := by
  unfold projectsSel
  exact List.mem_filter.mpr ⟨hp, by simp [hn]⟩

/-- A fetched project is a stored project. -/
theorem of_mem_projectsSel {db : DB} {p : Project} (h : p ∈ projectsSel db) :
    p ∈ db.projects :=
  (List.mem_filter.mp h).1

/-- The tender guard fires exactly on a parsed deadline inside the
five-day window. -/
theorem tenderCond_eq_true {today : Int} {t : Tender} :
    tenderCond today t = true ↔
      ∃ d, t.submission_deadline.day = some d ∧ today ≤ d ∧ d ≤ today + 5 := by
  unfold tenderCond
  cases h : t.submission_deadline.day with
  | none => simp
  | some d => simp [h]

/-- The invoice guard fires exactly on a parsed due date strictly before
today. -/
theorem invoiceCond_eq_true {today : Int} {ip : Invoice × Project} :
    invoiceCond today ip = true ↔
      ∃ d, ip.1.due_date.day = some d ∧ d < today := by
  unfold invoiceCond
  cases h : ip.1.due_date.day with
  | none => simp
  | some d => simp [h]

/-- The guarantee guard fires exactly on a parsed end date inside the
ten-day window. -/
theorem projectCond_eq_true {today : Int} {p : Project} :
    projectCond today p = true ↔
      ∃ d, p.guarantee_end.day = some d ∧ today ≤ d ∧ d ≤ today + 10 := by
  unfold projectCond
  cases h : p.guarantee_end.day with
  | none => simp
  | some d => simp [h]

/-- Payload of a tender whose deadline parses. -/
theorem tenderData_eq {today : Int} {t : Tender} {s : String} {d : Int}
    (hdl : t.submission_deadline = DateCol.ok s d) :
    tenderData today t =
      { title_en := "Tender closing soon"
        title_ar := "إقتراب إقفال مناقصة"
        message_en := "Tender " ++ t.title_en ++ " closes in " ++ intStr (d - today) ++ " day(s)."
        message_ar := "المناقصة " ++ pyOr t.title_ar t.title_en ++ " تغلق خلال " ++ intStr (d - today) ++ " يوم"
        level := "warning"
        target_role := "procurement" } := by
  unfold tenderData
  rw [hdl]
  rfl

/-- Payload of a project whose guarantee end parses. -/
theorem projectData_eq {today : Int} {p : Project} {s : String} {d : Int}
    (hg : p.guarantee_end = DateCol.ok s d) :
    projectData today p =
      { title_en := "Guarantee expiring"
        title_ar := "استحقاق الضمان"
        message_en := "Guarantee for project " ++ p.name_en ++ " expires in " ++ intStr (d - today) ++ " day(s)."
        message_ar := "ضمان مشروع " ++ pyOr p.name_ar p.name_en ++ " ينتهي خلال " ++ intStr (d - today) ++ " يوم"
        level := "info"
        target_role := "project_manager" } := by
  unfold projectData
  rw [hg]
  rfl

/-! ## Lemmas: session manager -/

/-- Query `fetch_one` over a table whose earlier rows all fail the predicate
finds the appended row exactly when it matches. -/
theorem find?_append_single {α : Type} {p : α → Bool} {l : List α} (x : α)
    (h : ∀ y ∈ l, p y = false) :
    List.find? p (l ++ [x]) = List.find? p [x] := by
  induction l with
  | nil => rfl
  | cons a as ih =>
    have ha : p a = false := h a (List.mem_cons_self a as)
    rw [List.cons_append, List.find?_cons_of_neg _ (by simp [ha])]
    exact ih (fun y hy => h y (List.mem_cons_of_mem _ hy))

/-- Resolving a token held by no session row returns the state unchanged
and no user. -/
theorem get_user_none_of_absent {db : AuthDB} {tok : String} {now : Int}
    (h : ∀ s ∈ db.sessions, s.token ≠ tok) :
    get_user_by_session db tok now = (db, none) := by
  unfold get_user_by_session
  rw [List.find?_eq_none.mpr (fun x hx => by simp [h x hx])]

/-! ## Claims -/

/-- Claim C2, counterexample to the claim as stated: the claim asserts
that resolving at any time greater than **or equal to** the duration D
returns none, but the code's expiry test is the strict `expires_at <
now`, so at exactly `creation + D` the session still resolves to the
bound user.  Concretely: one admin user, a session created at time 0,
resolved at exactly `SESSION_DURATION`. -/
theorem C2_counterexample :
    (get_user_by_session (create_session authDB0 1 "t" 0).1 "t" SESSION_DURATION).2 =
      some adminU := by
  decide

/-- Claim C2 (amended): for a session of duration D created at `t0` on a
fresh token, resolving at any time `≤ t0 + D` returns the bound user
(the claim's "strictly less than D" times, and additionally the exact
boundary `t0 + D`, since the code's expiry test is strict); resolving at
any time strictly greater than `t0 + D` returns none and deletes the
session row, and a repeated resolve of the same expired token again
returns none (idempotent). -/
theorem C2_session_lifecycle (db : AuthDB) (uid : Nat) (tok : String)
    (t0 now : Int) (u : UserRec)
    (htok : ∀ s ∈ db.sessions, s.token ≠ tok)
    (hid : ∀ s ∈ db.sessions, s.id ≠ db.nextSessionId)
    (hu : db.users.find? (fun x => x.id == uid) = some u) :
    (create_session db uid tok t0).2.2 = t0 + SESSION_DURATION ∧
    (now ≤ t0 + SESSION_DURATION →
      get_user_by_session (create_session db uid tok t0).1 tok now =
        ((create_session db uid tok t0).1, some u)) ∧
    (t0 + SESSION_DURATION < now →
      (get_user_by_session (create_session db uid tok t0).1 tok now).2 = none ∧
      (get_user_by_session (create_session db uid tok t0).1 tok now).1.sessions =
        db.sessions ∧
      (get_user_by_session
        (get_user_by_session (create_session db uid tok t0).1 tok now).1 tok now).2 =
          none) := by
  have hfind : ((create_session db uid tok t0).1).sessions.find? (fun s => s.token == tok) =
      some ⟨db.nextSessionId, uid, tok, t0 + SESSION_DURATION⟩ := by
    show (db.sessions ++ [(⟨db.nextSessionId, uid, tok, t0 + SESSION_DURATION⟩ : SessionRow)]).find?
        (fun s => s.token == tok) = _
    rw [find?_append_single _ (fun y hy => by simp [htok y hy])]
    simp [List.find?]
  refine ⟨rfl, ?_, ?_⟩
  · intro hnow
    unfold get_user_by_session
    rw [hfind]
    dsimp only
    rw [if_neg (show ¬ (t0 + SESSION_DURATION < now) by omega)]
    rw [show (create_session db uid tok t0).1.users = db.users from rfl, hu]
  · intro hnow
    have hres : get_user_by_session (create_session db uid tok t0).1 tok now =
        ({ (create_session db uid tok t0).1 with
            sessions := ((create_session db uid tok t0).1).sessions.filter
              (fun r => r.id != db.nextSessionId) }, none) := by
      unfold get_user_by_session
      rw [hfind]
      dsimp only
      rw [if_pos (show t0 + SESSION_DURATION < now by omega)]
    have hsess : ((create_session db uid tok t0).1).sessions.filter
        (fun r => r.id != db.nextSessionId) = db.sessions := by
      show (db.sessions ++ [(⟨db.nextSessionId, uid, tok, t0 + SESSION_DURATION⟩ : SessionRow)]).filter
          (fun r => r.id != db.nextSessionId) = db.sessions
      rw [List.filter_append]
      have h1 : db.sessions.filter (fun r => r.id != db.nextSessionId) = db.sessions :=
        List.filter_eq_self.mpr (fun r hr => by simp [hid r hr])
      have h2 : ([(⟨db.nextSessionId, uid, tok, t0 + SESSION_DURATION⟩ : SessionRow)] :
          List SessionRow).filter (fun r => r.id != db.nextSessionId) = [] := by
        simp
      rw [h1, h2, List.append_nil]
    refine ⟨by rw [hres], ?_, ?_⟩
    · rw [hres]
      exact hsess
    · rw [hres]
      have habs : ∀ s ∈ ({ (create_session db uid tok t0).1 with
          sessions := ((create_session db uid tok t0).1).sessions.filter
            (fun r => r.id != db.nextSessionId) } : AuthDB).sessions, s.token ≠ tok := by
        intro s hs
        have hs' : s ∈ ((create_session db uid tok t0).1).sessions.filter
            (fun r => r.id != db.nextSessionId) := hs
        rw [hsess] at hs'
        exact htok s hs'
      rw [get_user_none_of_absent habs]

/-- Witness for C2's amended theorem: the concrete one-admin store, a
session created at time 0, resolved one second past expiry — it returns
none, the row is gone, and resolving again still returns none. -/
theorem C2_witness :
    (get_user_by_session (create_session authDB0 1 "t" 0).1 "t" (SESSION_DURATION + 1)).2 =
      none ∧
    (get_user_by_session (create_session authDB0 1 "t" 0).1 "t"
      (SESSION_DURATION + 1)).1.sessions = authDB0.sessions ∧
    (get_user_by_session
      (get_user_by_session (create_session authDB0 1 "t" 0).1 "t" (SESSION_DURATION + 1)).1
      "t" (SESSION_DURATION + 1)).2 = none :=
  (C2_session_lifecycle authDB0 1 "t" 0 (SESSION_DURATION + 1) adminU
    (by decide) (by decide) (by decide)).2.2 (by decide)

/-- Claim C3, counterexample to the claim as stated: the claim asserts
`verify_password` returns false and never raises on **every** malformed
stored hash, but a stored hash that does contain the delimiter while its
salt field is not valid hex (here `"zz$ab"`) makes `bytes.fromhex` raise
`ValueError` outside the `try` block — the model returns `none`
(escaped exception), not `some false`.  The KDF is never reached, so the
concrete `demoKdf` stands in for it without loss. -/
theorem C3_counterexample :
    verify_password demoKdf "pw".data "zz$ab".data = none := by
  decide

/-- Claim C3 (amended): for every password and every stored hash whose
`"$"`-split does not produce exactly two fields (in particular one with
no delimiter at all), `verify_password` returns false without raising —
the `except ValueError` around the tuple unpacking catches exactly this
case.  (A stored hash with exactly one delimiter but a non-hex salt
field instead raises `ValueError`, per the counterexample.) -/
theorem C3_verify_malformed (kdf : List Char → List Nat → List Char)
    (password stored : List Char)
    (h : (splitDollar stored).length ≠ 2) :
    verify_password kdf password stored = some false := by
  unfold verify_password
  cases hs : splitDollar stored with
  | nil => rfl
  | cons a rest =>
    cases rest with
    | nil => rfl
    | cons b rest2 =>
      cases rest2 with
      | nil =>
        exfalso
        apply h
        rw [hs]
        rfl
      | cons c rest3 => rfl

/-- Witness for C3's amended theorem at a delimiter-free stored hash. -/
theorem C3_witness :
    verify_password demoKdf "p".data "nodelim".data = some false :=
  C3_verify_malformed demoKdf "p".data "nodelim".data (by decide)

/-- Claim C6: hashing round trip.  `kdf` abstracts the external
`pbkdf2_hmac(...).hex()`; the hypotheses record what that primitive
guarantees syntactically (hex output: no `$`, ASCII) plus the salts
being genuine bytes, the two salts differing (freshness of `os.urandom`)
and the two passwords having different digests under the salt
(collision-freeness of PBKDF2 at these inputs — the cryptographic
assumption behind the spec's "for all wrong passwords").  Then:
verification succeeds on the matching password, hashing the same
password under the two salts yields different strings, and verification
fails (returning false, not raising) on the wrong password. -/
theorem C6_hash_verify_roundtrip (kdf : List Char → List Nat → List Char)
    (salt salt' : List Nat) (p p' : List Char)
    (hs : ∀ b ∈ salt, b < 256) (hs' : ∀ b ∈ salt', b < 256)
    (hd : '$' ∉ kdf p salt)
    (ha : (kdf p salt).all isAscii = true) (ha' : (kdf p' salt).all isAscii = true)
    (hsalt : salt ≠ salt') (hdig : kdf p' salt ≠ kdf p salt) :
    verify_password kdf p (hash_password kdf salt p) = some true ∧
    hash_password kdf salt p ≠ hash_password kdf salt' p ∧
    verify_password kdf p' (hash_password kdf salt p) = some false := by
  refine ⟨?_, ?_, ?_⟩
  · rw [verify_hash_eq kdf salt p p hs hd]
    unfold compareDigest
    rw [if_pos (by rw [ha]; rfl)]
    simp
  · intro he
    unfold hash_password at he
    have h1 := congrArg splitDollar he
    rw [splitDollar_append _ (not_dollar_mem_bytesHex hs),
        splitDollar_append _ (not_dollar_mem_bytesHex hs')] at h1
    have h2 : bytesHex salt = bytesHex salt' := (List.cons_eq_cons.mp h1).1
    exact hsalt (bytesHex_inj hs hs' h2)
  · rw [verify_hash_eq kdf salt p p' hs hd]
    unfold compareDigest
    rw [if_pos (by rw [ha', ha]; rfl)]
    simp only [Option.some.injEq]
    exact beq_eq_false_iff_ne.mpr hdig

/-- Witness for C6 at the concrete `demoKdf`, salts `[0]` and `[1]`,
passwords `"a"` and `"b"`. -/
theorem C6_witness :
    verify_password demoKdf "a".data (hash_password demoKdf [0] "a".data) = some true ∧
    hash_password demoKdf [0] "a".data ≠ hash_password demoKdf [1] "a".data ∧
    verify_password demoKdf "b".data (hash_password demoKdf [0] "a".data) = some false :=
  C6_hash_verify_roundtrip demoKdf [0] [1] "a".data "b".data
    (by decide) (by decide) (by decide) (by decide) (by decide) (by decide) (by decide)

/-- Claim C7: `check_permission` for a viewer on `tenders` fails with the
`PermissionError` carrying the role and area; the admin role holds every
one of the five areas; any role outside the capability table maps to the
empty capability set (no lookup exception — `.get` with default) and so
fails for every area.  The lookup `ROLE_PERMISSIONS` is a pure function
of the role — side-effect freedom is structural in the embedding. -/
theorem C7_check_permission (role area : String) (u : UserRec) :
    check_permission viewerU "tenders" = Except.error ⟨"viewer", "tenders"⟩ ∧
    (area ∈ ["tenders", "projects", "finance", "suppliers", "reports"] →
      check_permission adminU area = Except.ok ()) ∧
    (role ∉ ["admin", "procurement", "project_manager", "finance", "viewer"] →
      ROLE_PERMISSIONS role = [] ∧
      (u.role = role → check_permission u area = Except.error ⟨role, area⟩)) := by
  refine ⟨rfl, ?_, ?_⟩
  · intro hmem
    have hadmin : ROLE_PERMISSIONS adminU.role =
        ["tenders", "projects", "finance", "suppliers", "reports"] := rfl
    unfold check_permission
    rw [hadmin, if_pos hmem]
  · intro hrole
    simp only [List.mem_cons, List.not_mem_nil, or_false, not_or] at hrole
    obtain ⟨h1, h2, h3, h4, h5⟩ := hrole
    have hperm : ROLE_PERMISSIONS role = [] := by
      unfold ROLE_PERMISSIONS
      rw [if_neg h1, if_neg h2, if_neg h3, if_neg h4, if_neg h5]
    refine ⟨hperm, ?_⟩
    intro hu
    unfold check_permission
    rw [hu, hperm]
    rw [if_neg (List.not_mem_nil area)]

/-- Witness for C7 at the unknown role `"ghost"` and area `"tenders"`. -/
theorem C7_witness :
    check_permission viewerU "tenders" = Except.error ⟨"viewer", "tenders"⟩ ∧
    check_permission adminU "finance" = Except.ok () ∧
    ROLE_PERMISSIONS "ghost" = [] ∧
    check_permission ⟨9, "g", "ghost"⟩ "tenders" = Except.error ⟨"ghost", "tenders"⟩ := by
  have h := C7_check_permission "ghost" "tenders" ⟨9, "g", "ghost"⟩
  have h2 := C7_check_permission "ghost" "finance" ⟨9, "g", "ghost"⟩
  exact ⟨h.1, h2.2.1 (by decide), (h.2.2 (by decide)).1, (h.2.2 (by decide)).2 rfl⟩

/-- Claim C1: the Alert Rule Engine is idempotent over unchanged domain
data — a second run produces exactly the same state; starting from a
store with distinct `unique_key` values (the schema's UNIQUE
constraint), the run keeps them distinct; and a run never modifies or
deletes an existing notification row, it only appends (in particular
stale rows are not retracted). -/
theorem C1_engine_idempotent (today : Int) (db : DB)
    (h : (db.notifications.map Notification.unique_key).Nodup) :
    ((generate_notifications today db).notifications.map Notification.unique_key).Nodup ∧
    generate_notifications today (generate_notifications today db) =
      generate_notifications today db ∧
    ∃ ext, (generate_notifications today db).notifications = db.notifications ++ ext := by
  refine ⟨gen_nodup today h, gen_idem today db, ?_⟩
  obtain ⟨ext, he, -⟩ := gen_notif_append today db
  exact ⟨ext, he⟩

/-- Witness for C1 at the three-rule demo store. -/
theorem C1_witness :
    ((generate_notifications 0 demoDB).notifications.map Notification.unique_key).Nodup ∧
    generate_notifications 0 (generate_notifications 0 demoDB) =
      generate_notifications 0 demoDB ∧
    ∃ ext, (generate_notifications 0 demoDB).notifications = demoDB.notifications ++ ext :=
  C1_engine_idempotent 0 demoDB (by decide)

/-- Claim C4, counterexample to the claim as stated: the claim asserts
that finance reads are gated by the `finance` area, but the
reports-summary route — which serves the financial pipeline — calls only
`require_user`, never `check_permission`: an authenticated viewer, whose
role does not hold the `finance` area, reads the finance figures
successfully. -/
theorem C4_counterexample :
    "finance" ∉ ROLE_PERMISSIONS viewerU.role ∧
    api_get_summary 0 emptyDB (some viewerU) = Except.ok (emptyDB, ⟨0, 0, 0⟩) :=
  ⟨by decide, rfl⟩

/-- Claim C4 (amended): every mutating domain operation
(create/update/delete of tender and supplier, create/update of project,
add/update of invoice — the source has no project or invoice delete)
runs `check_permission` for its area before touching storage and, for a
user whose role lacks that area, fails with the `PermissionError`
carrying role and area without performing the mutation (no state is
returned on error); pure reads of tenders/projects require only
authentication; and finance reads (the reports summary carrying the
financial pipeline) also require only authentication — they are *not*
gated by the finance area. -/
theorem C4_permission_gating :
    (∀ (db : DB) (user : UserRec) (t : Tender), "tenders" ∉ ROLE_PERMISSIONS user.role →
      create_tender db user t = Except.error ⟨user.role, "tenders"⟩) ∧
    (∀ (db : DB) (user : UserRec) (i : Nat) (f : Tender → Tender),
      "tenders" ∉ ROLE_PERMISSIONS user.role →
      update_tender db user i f = Except.error ⟨user.role, "tenders"⟩) ∧
    (∀ (db : DB) (user : UserRec) (i : Nat), "tenders" ∉ ROLE_PERMISSIONS user.role →
      delete_tender db user i = Except.error ⟨user.role, "tenders"⟩) ∧
    (∀ (db : DB) (user : UserRec) (s : Supplier), "suppliers" ∉ ROLE_PERMISSIONS user.role →
      create_supplier db user s = Except.error ⟨user.role, "suppliers"⟩) ∧
    (∀ (db : DB) (user : UserRec) (i : Nat) (f : Supplier → Supplier),
      "suppliers" ∉ ROLE_PERMISSIONS user.role →
      update_supplier db user i f = Except.error ⟨user.role, "suppliers"⟩) ∧
    (∀ (db : DB) (user : UserRec) (i : Nat), "suppliers" ∉ ROLE_PERMISSIONS user.role →
      delete_supplier db user i = Except.error ⟨user.role, "suppliers"⟩) ∧
    (∀ (db : DB) (user : UserRec) (p : Project), "projects" ∉ ROLE_PERMISSIONS user.role →
      create_project db user p = Except.error ⟨user.role, "projects"⟩) ∧
    (∀ (db : DB) (user : UserRec) (i : Nat) (f : Project → Project),
      "projects" ∉ ROLE_PERMISSIONS user.role →
      update_project db user i f = Except.error ⟨user.role, "projects"⟩) ∧
    (∀ (db : DB) (user : UserRec) (i : Nat) (inv : Invoice),
      "finance" ∉ ROLE_PERMISSIONS user.role →
      add_invoice db user i inv = Except.error ⟨user.role, "finance"⟩) ∧
    (∀ (db : DB) (user : UserRec) (i : Nat) (f : Invoice → Invoice),
      "finance" ∉ ROLE_PERMISSIONS user.role →
      update_invoice db user i f = Except.error ⟨user.role, "finance"⟩) ∧
    (∀ db : DB, api_list_tenders db none = Except.error ApiError.unauthorized) ∧
    (∀ (db : DB) (u : UserRec), api_list_tenders db (some u) = Except.ok db.tenders) ∧
    (∀ (db : DB) (u : UserRec), api_list_projects db (some u) = Except.ok db.projects) ∧
    (∀ (today : Int) (db : DB) (u : UserRec),
      api_get_summary today db (some u) =
        Except.ok (generate_notifications today db,
          financial_pipeline (generate_notifications today db))) := by
  refine ⟨?_, ?_, ?_, ?_, ?_, ?_, ?_, ?_, ?_, ?_, ?_, ?_, ?_, ?_⟩
  · intro db user t h
    unfold create_tender check_permission
    rw [if_neg h]
    rfl
  · intro db user i f h
    unfold update_tender check_permission
    rw [if_neg h]
    rfl
  · intro db user i h
    unfold delete_tender check_permission
    rw [if_neg h]
    rfl
  · intro db user s h
    unfold create_supplier check_permission
    rw [if_neg h]
    rfl
  · intro db user i f h
    unfold update_supplier check_permission
    rw [if_neg h]
    rfl
  · intro db user i h
    unfold delete_supplier check_permission
    rw [if_neg h]
    rfl
  · intro db user p h
    unfold create_project check_permission
    rw [if_neg h]
    rfl
  · intro db user i f h
    unfold update_project check_permission
    rw [if_neg h]
    rfl
  · intro db user i inv h
    unfold add_invoice check_permission
    rw [if_neg h]
    rfl
  · intro db user i f h
    unfold update_invoice check_permission
    rw [if_neg h]
    rfl
  · intro db
    rfl
  · intro db u
    rfl
  · intro db u
    rfl
  · intro today db u
    rfl

/-- Witness for C4's amended theorem: a viewer may not create tenders,
and reads pass with authentication only at the empty store. -/
theorem C4_witness :
    create_tender emptyDB viewerU ⟨1, "T", none, "draft", DateCol.null⟩ =
      Except.error ⟨"viewer", "tenders"⟩ ∧
    add_invoice emptyDB viewerU 1 ⟨1, 1, "unpaid", DateCol.null, 5⟩ =
      Except.error ⟨"viewer", "finance"⟩ ∧
    api_list_tenders emptyDB (some viewerU) = Except.ok emptyDB.tenders := by
  have h := C4_permission_gating
  exact ⟨h.1 emptyDB viewerU ⟨1, "T", none, "draft", DateCol.null⟩ (by decide),
    (h.2.2.2.2.2.2.2.2.1) emptyDB viewerU 1 ⟨1, 1, "unpaid", DateCol.null, 5⟩ (by decide),
    (h.2.2.2.2.2.2.2.2.2.2.2.1) emptyDB viewerU⟩

/-- Claim C10: every notification the engine produces targets one of the
roles `procurement`, `finance`, `project_manager`; consequently
`list_notifications` for any other role — in particular `admin` and
`viewer` — returns exactly what it returned before the run, so no
engine-generated notification ever reaches them (and since runs compose,
the same holds after any sequence of runs). -/
theorem C10_engine_target_roles (today : Int) (db : DB) (role : String) :
    (∃ ext, (generate_notifications today db).notifications = db.notifications ++ ext ∧
      ∀ n ∈ ext, n.target_role ∈ ["procurement", "finance", "project_manager"]) ∧
    (role ≠ "procurement" → role ≠ "finance" → role ≠ "project_manager" →
      list_notifications (generate_notifications today db) role =
        list_notifications db role) := by
  refine ⟨gen_notif_append today db, ?_⟩
  intro h1 h2 h3
  obtain ⟨ext, he, hr⟩ := gen_notif_append today db
  unfold list_notifications
  rw [he, List.filter_append]
  have hnil : ext.filter (fun n => n.target_role == role) = [] := by
    rw [List.filter_eq_nil_iff]
    intro n hn
    have hm := hr n hn
    simp only [List.mem_cons, List.not_mem_nil, or_false] at hm
    simp only [beq_iff_eq]
    rcases hm with hm | hm | hm <;> rw [hm]
    · exact fun e => h1 e.symm
    · exact fun e => h2 e.symm
    · exact fun e => h3 e.symm
  rw [hnil, List.append_nil]

/-- Witness for C10 at the demo store and the roles admin and viewer. -/
theorem C10_witness :
    list_notifications (generate_notifications 0 demoDB) "admin" =
      list_notifications demoDB "admin" ∧
    list_notifications (generate_notifications 0 demoDB) "viewer" =
      list_notifications demoDB "viewer" :=
  ⟨(C10_engine_target_roles 0 demoDB "admin").2 (by decide) (by decide) (by decide),
   (C10_engine_target_roles 0 demoDB "viewer").2 (by decide) (by decide) (by decide)⟩

/-- Claim C5: a stored tender with status in {draft, in_preparation,
submitted} whose deadline parses into `[today, today+5]` yields, after a
run over a store not yet holding its key, exactly one stored
notification keyed `tender_close_<id>` — a `warning` targeted at
`procurement` whose message carries the non-negative day count
`deadline - today`; a stored tender outside the status set or the window
(or with an unparseable deadline) yields none.  Tender ids are assumed
distinct (primary key). -/
theorem C5_tender_closing (today : Int) (db : DB)
    (hids : (db.tenders.map Tender.id).Nodup) :
    (∀ t ∈ db.tenders, ∀ (s : String) (d : Int),
      t.status ∈ TENDER_ALERT_STATUSES →
      t.submission_deadline = DateCol.ok s d →
      today ≤ d → d ≤ today + 5 →
      hasKey db (tenderKey t.id) = false →
      0 ≤ d - today ∧
      countKey (generate_notifications today db) (tenderKey t.id) = 1 ∧
      ∃ nid,
        (⟨nid, tenderKey t.id, "Tender closing soon", "إقتراب إقفال مناقصة",
          "Tender " ++ t.title_en ++ " closes in " ++ intStr (d - today) ++ " day(s).",
          "المناقصة " ++ pyOr t.title_ar t.title_en ++ " تغلق خلال " ++ intStr (d - today) ++ " يوم",
          "warning", "procurement", false⟩ : Notification) ∈
          (generate_notifications today db).notifications) ∧
    (∀ t ∈ db.tenders,
      ¬ (t.status ∈ TENDER_ALERT_STATUSES ∧
        ∃ (s : String) (d : Int), t.submission_deadline = DateCol.ok s d ∧
          today ≤ d ∧ d ≤ today + 5) →
      hasKey db (tenderKey t.id) = false →
      hasKey (generate_notifications today db) (tenderKey t.id) = false) := by
  constructor
  · intro t ht s d hst hdl h1 h2 hfresh
    have hc : tenderCond today t = true := by
      rw [tenderCond_eq_true]
      exact ⟨d, by rw [hdl]; rfl, h1, h2⟩
    have htm : t ∈ tendersSel db := mem_tendersSel ht hst hdl
    have huniq : ∀ y ∈ tendersSel db, tenderCond today y = true →
        tenderKey y.id = tenderKey t.id → y = t := by
      intro y hy _ hkey
      exact List.inj_on_of_nodup_map hids (of_mem_tendersSel hy).1 ht (tenderKey_inj hkey)
    obtain ⟨nid, hmem, hcount⟩ :=
      @scanFold_insert Tender (tenderCond today) (fun x => tenderKey x.id)
        (tenderData today) (tendersSel db) db (tenderKey t.id) t hfresh htm hc rfl huniq
    have hkX : hasKey (scanTenders today db) (tenderKey t.id) = true := by
      unfold scanTenders
      exact scanFold_fires _ _ htm hc
    have hk2 : hasKey (scanInvoices today (scanTenders today db)) (tenderKey t.id) = true := by
      unfold scanInvoices
      exact scanFold_hasKey_mono _ hkX
    have hcount2 : countKey (scanInvoices today (scanTenders today db)) (tenderKey t.id) =
        countKey (scanTenders today db) (tenderKey t.id) := by
      unfold scanInvoices
      exact scanFold_countKey_of_hasKey _ hkX
    have hcount3 : countKey (generate_notifications today db) (tenderKey t.id) =
        countKey (scanInvoices today (scanTenders today db)) (tenderKey t.id) := by
      unfold generate_notifications scanProjects
      exact scanFold_countKey_of_hasKey _ hk2
    refine ⟨by omega, ?_, ?_⟩
    · rw [hcount3, hcount2]
      exact hcount
    · refine ⟨nid, ?_⟩
      have hrow : mkNotif nid (tenderKey t.id) (tenderData today t) =
          ⟨nid, tenderKey t.id, "Tender closing soon", "إقتراب إقفال مناقصة",
            "Tender " ++ t.title_en ++ " closes in " ++ intStr (d - today) ++ " day(s).",
            "المناقصة " ++ pyOr t.title_ar t.title_en ++ " تغلق خلال " ++ intStr (d - today) ++ " يوم",
            "warning", "procurement", false⟩ := by
        rw [tenderData_eq hdl]
        rfl
      rw [← hrow]
      obtain ⟨e2, he2, -⟩ := scanInvoices_notif_append today (scanTenders today db)
      obtain ⟨e3, he3, -⟩ :=
        scanProjects_notif_append today (scanInvoices today (scanTenders today db))
      unfold generate_notifications
      rw [he3, he2]
      exact List.mem_append_left _ (List.mem_append_left _ hmem)
  · intro t ht hneg hfresh
    have hnone : ∀ y ∈ tendersSel db, tenderCond today y = true →
        tenderKey y.id ≠ tenderKey t.id := by
      intro y hy hcy hkey
      have hyt : y = t :=
        List.inj_on_of_nodup_map hids (of_mem_tendersSel hy).1 ht (tenderKey_inj hkey)
      subst hyt
      apply hneg
      refine ⟨(of_mem_tendersSel hy).2, ?_⟩
      obtain ⟨d, hday, hd1, hd2⟩ := tenderCond_eq_true.mp hcy
      cases hdl : y.submission_deadline with
      | null => rw [hdl] at hday; simp [DateCol.day] at hday
      | bad s0 => rw [hdl] at hday; simp [DateCol.day] at hday
      | ok s0 d0 =>
        rw [hdl] at hday
        simp [DateCol.day] at hday
        exact ⟨s0, d0, rfl, by omega, by omega⟩
    have hk1 : hasKey (scanTenders today db) (tenderKey t.id) = false := by
      unfold scanTenders
      rw [scanFold_hasKey_other db hnone]
      exact hfresh
    have hk2 : hasKey (scanInvoices today (scanTenders today db)) (tenderKey t.id) = false := by
      unfold scanInvoices
      rw [scanFold_hasKey_other _
        (fun ip _ _ => fun e => tenderKey_ne_invoiceKey t.id ip.1.id e.symm)]
      exact hk1
    unfold generate_notifications scanProjects
    rw [scanFold_hasKey_other _
      (fun p _ _ => fun e => tenderKey_ne_guaranteeKey t.id p.id e.symm)]
    exact hk2

/-- Witness for C5 at the demo store's submitted tender closing in 3
days: exactly one procurement warning keyed `tender_close_1` with day
count 3. -/
theorem C5_witness :
    0 ≤ (3 : Int) - 0 ∧
    countKey (generate_notifications 0 demoDB) (tenderKey 1) = 1 := by
  have h := (C5_tender_closing 0 demoDB (by decide)).1
    ⟨1, "Logistics support", some "دعم لوجستي", "submitted", DateCol.ok "2024-01-04" 3⟩
    (by decide) "2024-01-04" 3 (by decide) rfl (by decide) (by decide) (by decide)
  exact ⟨h.1, h.2.1⟩

/-- Claim C8: a stored invoice with status ≠ paid whose due date parses
strictly before today — joined to its (foreign-key-guaranteed) project —
yields, after a run over a store not yet holding its key, exactly one
stored `danger` notification keyed `invoice_due_<id>` targeted at
`finance`; and re-running the engine after `mark_notification_read`
leaves the store — in particular every `is_read` flag — untouched.
Invoice ids are assumed distinct (primary key). -/
theorem C8_invoice_overdue (today : Int) (db : DB)
    (hids : (db.invoices.map Invoice.id).Nodup) :
    (∀ inv ∈ db.invoices, ∀ (p : Project) (s : String) (d : Int),
      inv.status ≠ "paid" →
      inv.due_date = DateCol.ok s d →
      d < today →
      db.projects.find? (fun q => q.id == inv.project_id) = some p →
      hasKey db (invoiceKey inv.id) = false →
      countKey (generate_notifications today db) (invoiceKey inv.id) = 1 ∧
      ∃ nid,
        (⟨nid, invoiceKey inv.id, "Invoice overdue", "فاتورة متأخرة",
          "Invoice for project " ++ p.name_en ++ " is overdue since " ++ inv.due_date.text ++ ".",
          "فاتورة مشروع " ++ pyOr p.name_ar p.name_en ++ " متأخرة منذ " ++ inv.due_date.text ++ ".",
          "danger", "finance", false⟩ : Notification) ∈
          (generate_notifications today db).notifications) ∧
    (∀ nid2 : Nat,
      generate_notifications today
          (mark_notification_read (generate_notifications today db) nid2) =
        mark_notification_read (generate_notifications today db) nid2) := by
  constructor
  · intro inv hi p s d hst hdd hd hf hfresh
    have hc : invoiceCond today ((inv, p) : Invoice × Project) = true := by
      rw [invoiceCond_eq_true]
      refine ⟨d, ?_, hd⟩
      show inv.due_date.day = some d
      rw [hdd]
      rfl
    have hip : (inv, p) ∈ invoicesSel db := mem_invoicesSel hi hst hdd hf
    have hk1 : hasKey (scanTenders today db) (invoiceKey inv.id) = false := by
      unfold scanTenders
      rw [scanFold_hasKey_other db (fun y _ _ => tenderKey_ne_invoiceKey y.id inv.id)]
      exact hfresh
    have hselT : invoicesSel (scanTenders today db) = invoicesSel db :=
      invoicesSel_congr (core_invoices (scanTenders_core today db))
        (core_projects (scanTenders_core today db))
    have huniq : ∀ y ∈ invoicesSel db, invoiceCond today y = true →
        invoiceKey y.1.id = invoiceKey inv.id → y = (inv, p) := by
      intro y hy _ hkey
      obtain ⟨hyi, hyfind⟩ := of_mem_invoicesSel hy
      have h1 : y.1 = inv := List.inj_on_of_nodup_map hids hyi hi (invoiceKey_inj hkey)
      have h2 : y.2 = p := by
        rw [h1] at hyfind
        rw [hyfind] at hf
        exact Option.some.inj hf
      rw [← h1, ← h2]
    obtain ⟨nid, hmem, hcount⟩ :=
      @scanFold_insert (Invoice × Project) (invoiceCond today) (fun x => invoiceKey x.1.id)
        invoiceData (invoicesSel (scanTenders today db)) (scanTenders today db)
        (invoiceKey inv.id) (inv, p) hk1 (by rw [hselT]; exact hip) hc rfl
        (by rw [hselT]; exact huniq)
    have hk2 : hasKey (scanInvoices today (scanTenders today db)) (invoiceKey inv.id) = true := by
      unfold scanInvoices
      rw [hselT]
      exact scanFold_fires _ _ hip hc
    have hcount3 : countKey (generate_notifications today db) (invoiceKey inv.id) =
        countKey (scanInvoices today (scanTenders today db)) (invoiceKey inv.id) := by
      unfold generate_notifications scanProjects
      exact scanFold_countKey_of_hasKey _ hk2
    constructor
    · rw [hcount3]
      exact hcount
    · refine ⟨nid, ?_⟩
      have hrow : mkNotif nid (invoiceKey inv.id) (invoiceData (inv, p)) =
          ⟨nid, invoiceKey inv.id, "Invoice overdue", "فاتورة متأخرة",
            "Invoice for project " ++ p.name_en ++ " is overdue since " ++ inv.due_date.text ++ ".",
            "فاتورة مشروع " ++ pyOr p.name_ar p.name_en ++ " متأخرة منذ " ++ inv.due_date.text ++ ".",
            "danger", "finance", false⟩ := rfl
      rw [← hrow]
      obtain ⟨e3, he3, -⟩ :=
        scanProjects_notif_append today (scanInvoices today (scanTenders today db))
      unfold generate_notifications
      rw [he3]
      exact List.mem_append_left _ hmem
  · intro nid2
    refine @gen_noop_of today db
      (mark_notification_read (generate_notifications today db) nid2) ?_ ?_ ?_ ?_
    · rw [markRead_tenders]
      exact core_tenders (gen_core today db)
    · rw [markRead_projects]
      exact core_projects (gen_core today db)
    · rw [markRead_invoices]
      exact core_invoices (gen_core today db)
    · intro k hk
      rw [markRead_hasKey]
      exact hk

/-- Witness for C8 at the demo store's one-day-overdue unpaid invoice,
plus the engine's no-op after marking notification 2 read. -/
theorem C8_witness :
    countKey (generate_notifications 0 demoDB) (invoiceKey 1) = 1 ∧
    generate_notifications 0 (mark_notification_read (generate_notifications 0 demoDB) 2) =
      mark_notification_read (generate_notifications 0 demoDB) 2 := by
  have h := C8_invoice_overdue 0 demoDB (by decide)
  have h1 := h.1 ⟨1, 1, "unpaid", DateCol.ok "2023-12-30" (-1), 1000⟩ (by decide)
    ⟨1, "Logistics project", none, DateCol.ok "2024-01-08" 7, 0, 0⟩ "2023-12-30" (-1)
    (by decide) rfl (by decide) (by decide) (by decide)
  exact ⟨h1.1, h.2 2⟩

/-- Claim C9: a stored project with a non-null guarantee end parsing
into `[today, today+10]` yields, after a run over a store not yet
holding its key, exactly one stored `info` notification keyed
`guarantee_due_<id>` targeted at `project_manager`; a project outside
the window (e.g. `today + 11`) — or whose stored text does not parse —
yields none, and such rows are skipped without aborting the scan (the
positive half holds in any store, whatever malformed rows it also
contains).  Project ids are assumed distinct (primary key). -/
theorem C9_guarantee_expiry (today : Int) (db : DB)
    (hids : (db.projects.map Project.id).Nodup) :
    (∀ p ∈ db.projects, ∀ (s : String) (d : Int),
      p.guarantee_end = DateCol.ok s d →
      today ≤ d → d ≤ today + 10 →
      hasKey db (guaranteeKey p.id) = false →
      countKey (generate_notifications today db) (guaranteeKey p.id) = 1 ∧
      ∃ nid,
        (⟨nid, guaranteeKey p.id, "Guarantee expiring", "استحقاق الضمان",
          "Guarantee for project " ++ p.name_en ++ " expires in " ++ intStr (d - today) ++ " day(s).",
          "ضمان مشروع " ++ pyOr p.name_ar p.name_en ++ " ينتهي خلال " ++ intStr (d - today) ++ " يوم",
          "info", "project_manager", false⟩ : Notification) ∈
          (generate_notifications today db).notifications) ∧
    (∀ p ∈ db.projects,
      ¬ (∃ (s : String) (d : Int), p.guarantee_end = DateCol.ok s d ∧
          today ≤ d ∧ d ≤ today + 10) →
      hasKey db (guaranteeKey p.id) = false →
      hasKey (generate_notifications today db) (guaranteeKey p.id) = false) := by
  have hprojEq : (scanInvoices today (scanTenders today db)).projects = db.projects := by
    rw [core_projects (scanInvoices_core _ _), core_projects (scanTenders_core _ _)]
  have hselP : projectsSel (scanInvoices today (scanTenders today db)) = projectsSel db :=
    projectsSel_congr hprojEq
  constructor
  · intro p hp s d hg h1 h2 hfresh
    have hc : projectCond today p = true := by
      rw [projectCond_eq_true]
      refine ⟨d, ?_, h1, h2⟩
      rw [hg]
      rfl
    have hpm : p ∈ projectsSel db := mem_projectsSel hp (by rw [hg]; rfl)
    have hk1 : hasKey (scanTenders today db) (guaranteeKey p.id) = false := by
      unfold scanTenders
      rw [scanFold_hasKey_other db (fun y _ _ => tenderKey_ne_guaranteeKey y.id p.id)]
      exact hfresh
    have hk2 : hasKey (scanInvoices today (scanTenders today db)) (guaranteeKey p.id) = false := by
      unfold scanInvoices
      rw [scanFold_hasKey_other _ (fun y _ _ => invoiceKey_ne_guaranteeKey y.1.id p.id)]
      exact hk1
    have huniq : ∀ y ∈ projectsSel db, projectCond today y = true →
        guaranteeKey y.id = guaranteeKey p.id → y = p := by
      intro y hy _ hkey
      exact List.inj_on_of_nodup_map hids (of_mem_projectsSel hy) hp (guaranteeKey_inj hkey)
    obtain ⟨nid, hmem, hcount⟩ :=
      @scanFold_insert Project (projectCond today) (fun x => guaranteeKey x.id)
        (projectData today) (projectsSel (scanInvoices today (scanTenders today db)))
        (scanInvoices today (scanTenders today db)) (guaranteeKey p.id) p
        hk2 (by rw [hselP]; exact hpm) hc rfl (by rw [hselP]; exact huniq)
    constructor
    · exact hcount
    · refine ⟨nid, ?_⟩
      have hrow : mkNotif nid (guaranteeKey p.id) (projectData today p) =
          ⟨nid, guaranteeKey p.id, "Guarantee expiring", "استحقاق الضمان",
            "Guarantee for project " ++ p.name_en ++ " expires in " ++ intStr (d - today) ++ " day(s).",
            "ضمان مشروع " ++ pyOr p.name_ar p.name_en ++ " ينتهي خلال " ++ intStr (d - today) ++ " يوم",
            "info", "project_manager", false⟩ := by
        rw [projectData_eq hg]
        rfl
      rw [← hrow]
      exact hmem
  · intro p hp hneg hfresh
    have hnone : ∀ y ∈ projectsSel db, projectCond today y = true →
        guaranteeKey y.id ≠ guaranteeKey p.id := by
      intro y hy hcy hkey
      have hyp : y = p :=
        List.inj_on_of_nodup_map hids (of_mem_projectsSel hy) hp (guaranteeKey_inj hkey)
      subst hyp
      apply hneg
      obtain ⟨d, hday, hd1, hd2⟩ := projectCond_eq_true.mp hcy
      cases hgl : y.guarantee_end with
      | null => rw [hgl] at hday; simp [DateCol.day] at hday
      | bad s0 => rw [hgl] at hday; simp [DateCol.day] at hday
      | ok s0 d0 =>
        rw [hgl] at hday
        simp [DateCol.day] at hday
        exact ⟨s0, d0, rfl, by omega, by omega⟩
    have hk1 : hasKey (scanTenders today db) (guaranteeKey p.id) = false := by
      unfold scanTenders
      rw [scanFold_hasKey_other db (fun y _ _ => tenderKey_ne_guaranteeKey y.id p.id)]
      exact hfresh
    have hk2 : hasKey (scanInvoices today (scanTenders today db)) (guaranteeKey p.id) = false := by
      unfold scanInvoices
      rw [scanFold_hasKey_other _ (fun y _ _ => invoiceKey_ne_guaranteeKey y.1.id p.id)]
      exact hk1
    unfold generate_notifications scanProjects
    rw [scanFold_hasKey_other _ (by rw [hselP]; exact hnone)]
    exact hk2

/-- Witness for C9 at the demo store's project whose guarantee ends in
7 days. -/
theorem C9_witness :
    countKey (generate_notifications 0 demoDB) (guaranteeKey 1) = 1 := by
  have h := (C9_guarantee_expiry 0 demoDB (by decide)).1
    ⟨1, "Logistics project", none, DateCol.ok "2024-01-08" 7, 0, 0⟩
    (by decide) "2024-01-08" 7 rfl (by decide) (by decide) (by decide)
  exact h.1

end TenderPortal

